import Mathlib

/-!
Verification of the delerium-client cryptographic core against its
specification.

JS strings that carry base64 text are modelled as `List Char`
(wrapped into Lean `String` at the API boundary); raw binary data
(`Uint8Array` / `ArrayBuffer`) is modelled as `List Nat` with every
element `< 256`.  A JS function that can throw is modelled as returning
`Option` (`none` = the call throws / the promise rejects).
-/

set_option maxHeartbeats 1000000

/-! ## Base64 / base64url codec (src/core/crypto/encoding.ts)

The repository's `encodeBase64Url` / `decodeBase64Url` delegate to the
platform's `btoa` / `atob`.  Those two are modelled from the WHATWG
infra specification of forgiving-base64 (the behaviour the spec's
"never throw" sentence is about), everything else is translated from
`encoding.ts`.
-/

/-- Code of the character at position `n` (`n < 64`) of the standard
base64 alphabet `A-Z a-z 0-9 + /`. -/
def b64Code (n : Nat) : Nat :=
  if n < 26 then 65 + n
  else if n < 52 then 71 + n
  else if n < 62 then n - 4
  else if n = 62 then 43
  else 47

/-- Character at position `n` of the base64 alphabet. -/
def b64Char (n : Nat) : Char := Char.ofNat (b64Code n)

/-- Position of character `c` in the base64 alphabet, `none` when `c` is
not an alphabet character (note `'='` is not in the alphabet). -/
def b64DecodeVal (c : Char) : Option Nat :=
  let n := c.toNat
  if 65 ≤ n ∧ n ≤ 90 then some (n - 65)
  else if 97 ≤ n ∧ n ≤ 122 then some (n - 71)
  else if 48 ≤ n ∧ n ≤ 57 then some (n + 4)
  else if n = 43 then some 62
  else if n = 47 then some 63
  else none

/-- Standard base64 encoding of a byte list, 3 bytes at a time, with
trailing `'='` padding — the behaviour of `btoa` on a binary string. -/
def b64EncodeChunks : List Nat → List Char
  | [] => []
  | [b1] => [b64Char (b1 / 4), b64Char (b1 % 4 * 16), '=', '=']
  | [b1, b2] => [b64Char (b1 / 4), b64Char (b1 % 4 * 16 + b2 / 16), b64Char (b2 % 16 * 4), '=']
  | b1 :: b2 :: b3 :: rest =>
      b64Char (b1 / 4) :: b64Char (b1 % 4 * 16 + b2 / 16) ::
      b64Char (b2 % 16 * 4 + b3 / 64) :: b64Char (b3 % 64) :: b64EncodeChunks rest

/-- ASCII whitespace removed by forgiving-base64. -/
def isB64Whitespace (c : Char) : Bool :=
  c = '\t' ∨ c = '\n' ∨ c = '\x0c' ∨ c = '\r' ∨ c = ' '

/-- Forgiving-base64 removes one or two trailing `'='` characters when
the length is a multiple of four. -/
def dropAtobPadding (l : List Char) : List Char :=
  match l.reverse with
  | a :: b :: r => if a = '=' then (if b = '=' then r.reverse else (b :: r).reverse) else l
  | [a] => if a = '=' then [] else l
  | [] => l

/-- Sextet values back to bytes, 4 sextets to 3 bytes; a final group of
2 or 3 sextets yields 1 or 2 bytes with the leftover bits discarded. -/
def decodeQuads : List Nat → List Nat
  | [] => []
  | [_] => []
  | [s1, s2] => [s1 * 4 + s2 / 16]
  | [s1, s2, s3] => [s1 * 4 + s2 / 16, s2 % 16 * 16 + s3 / 4]
  | s1 :: s2 :: s3 :: s4 :: rest =>
      (s1 * 4 + s2 / 16) :: (s2 % 16 * 16 + s3 / 4) :: (s3 % 4 * 64 + s4) :: decodeQuads rest

/-- The preprocessing of forgiving-base64: remove ASCII whitespace,
then remove up to two trailing `'='` when the length is a multiple of
four. -/
def atobStripped (s : List Char) : List Char :=
  let d0 := s.filter (fun c => !(isB64Whitespace c))
  if d0.length % 4 = 0 then dropAtobPadding d0 else d0

/-- Modelled from the WHATWG infra specification: `atob`, i.e. the
forgiving-base64 decode run by the platform.  `none` models the
`InvalidCharacterError` that `atob` throws on a non-alphabet character
or on a length that leaves a remainder of 1 modulo 4. -/
def atobChars (s : List Char) : Option (List Nat) :=
  if (atobStripped s).length % 4 = 1 then none
  else if (atobStripped s).all (fun c => (b64DecodeVal c).isSome) then
    some (decodeQuads ((atobStripped s).map (fun c => (b64DecodeVal c).getD 0)))
  else none

/-- The `'+' → '-'`, `'/' → '_'` substitution of `encodeBase64Url`. -/
def urlSubstChar (c : Char) : Char :=
  if c = '+' then '-' else if c = '/' then '_' else c

/-- The `'-' → '+'`, `'_' → '/'` restoration of `decodeBase64Url`. -/
def urlRestoreChar (c : Char) : Char :=
  if c = '-' then '+' else if c = '_' then '/' else c

/-- The `replace(/=+$/, '')` step: remove every trailing `'='`. -/
def dropTrailingEq (l : List Char) : List Char :=
  (l.reverse.dropWhile (fun c => c = '=')).reverse

/-- The `while (padded.length % 4) padded += '='` loop. -/
def padToQuad (l : List Char) : List Char :=
  l ++ List.replicate ((4 - l.length % 4) % 4) '='

/-- `encodeBase64Url` from `encoding.ts`, at the character-list level. -/
def encodeBase64UrlChars (bs : List Nat) : List Char :=
  dropTrailingEq ((b64EncodeChunks bs).map urlSubstChar)

/-- `encodeBase64Url` from `encoding.ts`. -/
def encodeBase64Url (bs : List Nat) : String :=
  ⟨encodeBase64UrlChars bs⟩

/-- `decodeBase64Url` from `encoding.ts`, at the character-list level. -/
def decodeBase64UrlChars (s : List Char) : Option (List Nat) :=
  atobChars (padToQuad (s.map urlRestoreChar))

/-- `decodeBase64Url` from `encoding.ts`; `none` models the exception
propagating out of the internal `atob` call. -/
def decodeBase64Url (s : String) : Option (List Nat) :=
  decodeBase64UrlChars s.data

/-! ## SHA-256 (platform `crypto.subtle.digest('SHA-256', …)`)

Modelled from the spec: the Web Crypto digest used by the PoW solver,
implemented from FIPS 180-4 over byte lists. -/

namespace SHA256

/-- Truncate to a 32-bit word. -/
def w32 (x : Nat) : Nat := x % 4294967296

/-- Right rotation of a 32-bit word. -/
def rotr (n x : Nat) : Nat := w32 ((x >>> n) ||| (x <<< (32 - n)))

def smallSigma0 (x : Nat) : Nat := rotr 7 x ^^^ rotr 18 x ^^^ (x >>> 3)

def smallSigma1 (x : Nat) : Nat := rotr 17 x ^^^ rotr 19 x ^^^ (x >>> 10)

def bigSigma0 (x : Nat) : Nat := rotr 2 x ^^^ rotr 13 x ^^^ rotr 22 x

def bigSigma1 (x : Nat) : Nat := rotr 6 x ^^^ rotr 11 x ^^^ rotr 25 x

def ch (x y z : Nat) : Nat := (x &&& y) ^^^ ((x ^^^ 4294967295) &&& z)

def maj (x y z : Nat) : Nat := (x &&& y) ^^^ (x &&& z) ^^^ (y &&& z)

/-- Round constants (decimal values of the FIPS 180-4 table). -/
def K : List Nat :=
  [1116352408, 1899447441, 3049323471, 3921009573, 961987163,
   1508970993, 2453635748, 2870763221, 3624381080, 310598401,
   607225278, 1426881987, 1925078388, 2162078206, 2614888103,
   3248222580, 3835390401, 4022224774, 264347078, 604807628,
   770255983, 1249150122, 1555081692, 1996064986, 2554220882,
   2821834349, 2952996808, 3210313671, 3336571891, 3584528711,
   113926993, 338241895, 666307205, 773529912, 1294757372,
   1396182291, 1695183700, 1986661051, 2177026350, 2456956037,
   2730485921, 2820302411, 3259730800, 3345764771, 3516065817,
   3600352804, 4094571909, 275423344, 430227734, 506948616,
   659060556, 883997877, 958139571, 1322822218, 1537002063,
   1747873779, 1955562222, 2024104815, 2227730452, 2361852424,
   2428436474, 2756734187, 3204031479, 3329325298]

/-- Initial hash state (decimal values of the FIPS 180-4 table). -/
def H0 : List Nat :=
  [1779033703, 3144134277, 1013904242, 2773480762, 1359893119,
   2600822924, 528734635, 1541459225]

/-- Big-endian bytes of `x`, `n` bytes wide. -/
def beBytes : Nat → Nat → List Nat
  | 0, _ => []
  | n + 1, x => beBytes n (x / 256) ++ [x % 256]

/-- FIPS 180-4 padding: append `0x80`, zeros, and the 64-bit bit length. -/
def padMessage (msg : List Nat) : List Nat :=
  msg ++ [0x80] ++ List.replicate ((119 - msg.length % 64) % 64) 0 ++ beBytes 8 (msg.length * 8)

/-- Big-endian 32-bit words from bytes. -/
def toWords : List Nat → List Nat
  | b1 :: b2 :: b3 :: b4 :: rest =>
      (b1 * 16777216 + b2 * 65536 + b3 * 256 + b4) :: toWords rest
  | _ => []

/-- Split into 64-byte blocks (`n` = number of blocks). -/
def splitBlocks : List Nat → Nat → List (List Nat)
  | _, 0 => []
  | l, n + 1 => l.take 64 :: splitBlocks (l.drop 64) n

/-- Extend the 16-word message block, appending `n` further schedule
words. -/
def extendLoop (w : List Nat) : Nat → List Nat
  | 0 => w
  | n + 1 =>
      let i := w.length
      let v := w32 (smallSigma1 (w.getD (i - 2) 0) + w.getD (i - 7) 0 +
                    smallSigma0 (w.getD (i - 15) 0) + w.getD (i - 16) 0)
      extendLoop (w ++ [v]) n

/-- The 64-word message schedule. -/
def schedule (w16 : List Nat) : List Nat := extendLoop w16 48

/-- One compression round on the 8-word working state. -/
def compressStep (st : List Nat) (kw : Nat × Nat) : List Nat :=
  match st with
  | [a, b, c, d, e, f, g, h] =>
      let t1 := w32 (h + bigSigma1 e + ch e f g + kw.1 + kw.2)
      let t2 := w32 (bigSigma0 a + maj a b c)
      [w32 (t1 + t2), a, b, c, w32 (d + t1), e, f, g]
  | _ => st

/-- Compress one 64-byte block into the hash state. -/
def compressBlock (H : List Nat) (block : List Nat) : List Nat :=
  let st := (K.zip (schedule (toWords block))).foldl compressStep H
  List.zipWith (fun a b => w32 (a + b)) H st

/-- SHA-256 digest (32 bytes) of a byte list. -/
def sha256 (msg : List Nat) : List Nat :=
  let padded := padMessage msg
  ((splitBlocks padded (padded.length / 64)).foldl compressBlock H0).map (beBytes 4) |>.flatten

end SHA256

/-! ## PoW solver (InlinePowSolver)

Translated from the inline solver source.  The `async` driver loop is
modelled as a step function plus a fuel-indexed search; cancellation is
the solver-instance flag the source checks at the top of every
iteration. -/

/-- `countLeadingZeroBits` of the solver: per digest byte, a zero byte
adds 8 and continues, the first nonzero byte adds `Math.clz32(b) - 24`
(its leading zero bits) and stops. -/
def countLeadingZeroBits : List Nat → Nat
  | [] => 0
  | b :: rest => if b = 0 then 8 + countLeadingZeroBits rest else 7 - Nat.log2 b

/-- The hashed text `"{challenge}:{nonce}"` as UTF-8 bytes; the
challenge is carried as its UTF-8 byte list, `58` is `':'`, and the
nonce prints in decimal exactly as JS template interpolation does. -/
def powMessage (challenge : List Nat) (nonce : Nat) : List Nat :=
  challenge ++ [58] ++ (Nat.toDigits 10 nonce).map Char.toNat

/-- Leading zero bits of the digest for a candidate nonce. -/
def powNonceBits (challenge : List Nat) (nonce : Nat) : Nat :=
  countLeadingZeroBits (SHA256.sha256 (powMessage challenge nonce))

/-- The solver instance: its only mutable state is the `cancelled`
flag. -/
structure InlinePowSolver where
  cancelled : Bool

/-- `cancel()`: set the flag. -/
def InlinePowSolver.cancel (s : InlinePowSolver) : InlinePowSolver :=
  { s with cancelled := true }

/-- The `this.cancelled = false` assignment at the top of `solve`. -/
def InlinePowSolver.solveBegin (s : InlinePowSolver) : InlinePowSolver :=
  { s with cancelled := false }

/-- Outcome of one iteration of the solver's `step` closure. -/
inductive PowStepOutcome where
  | rejectedCancelled
  | resolved (nonce : Nat)
  | nextIteration (nonce : Nat)
deriving DecidableEq, Repr

/-- One iteration of `step`: observe the cancellation flag first, then
test the current nonce, otherwise continue with `nonce + 1`. -/
def powSolveStep (s : InlinePowSolver) (challenge : List Nat) (difficulty nonce : Nat) :
    PowStepOutcome :=
  if s.cancelled then .rejectedCancelled
  else if difficulty ≤ powNonceBits challenge nonce then .resolved nonce
  else .nextIteration (nonce + 1)

/-- The un-cancelled solver loop, driven for at most `fuel` iterations
from a given nonce (`none` = still running after `fuel` iterations). -/
def solveRec (challenge : List Nat) (difficulty : Nat) : Nat → Nat → Option Nat
  | 0, _ => none
  | fuel + 1, nonce =>
      match powSolveStep ⟨false⟩ challenge difficulty nonce with
      | .rejectedCancelled => none
      | .resolved n => some n
      | .nextIteration n => solveRec challenge difficulty fuel n

/-- `solve` started at nonce 0, echoing the challenge in the solution
pair as the source's `resolve({challenge, nonce})` does. -/
def solveFromZero (challenge : List Nat) (difficulty fuel : Nat) : Option (List Nat × Nat) :=
  (solveRec challenge difficulty fuel 0).map (fun n => (challenge, n))

/-! ## Bit flips

`flipBit bs i j` flips bit `j` of byte `i` — the tamper operation of
the spec's integrity property. -/

/-- Flip bit `j` of the byte at position `i`. -/
def flipBit (bs : List Nat) (i j : Nat) : List Nat :=
  bs.set i (bs.getD i 0 ^^^ (1 <<< j))

/-! ## Platform crypto (`crypto.subtle`, `TextEncoder`, `TextDecoder`)

The Web Crypto AEAD, PBKDF2 and the UTF-8 text codec are browser
platform primitives, not code of this repository; `aes-gcm.ts` only
composes them.  They are modelled as an abstract bundle together with
the contract the specification states for them. -/

/-- Modelled from the spec: the platform primitives used by
`AesGcmCryptoProvider`.  `aeadEncrypt key iv plaintext` is
`crypto.subtle.encrypt` for AES-GCM (ciphertext including the
authentication tag); `aeadDecrypt` is `crypto.subtle.decrypt`, `none`
when the promise rejects; `pbkdf2 password salt iterations hash bits`
is the PBKDF2 `deriveKey` + raw key material; `utf8Encode` /
`utf8Decode` are `TextEncoder` / `TextDecoder` (the latter total, as a
non-fatal decoder never throws). -/
structure Platform where
  aeadEncrypt : List Nat → List Nat → List Nat → List Nat
  aeadDecrypt : List Nat → List Nat → List Nat → Option (List Nat)
  pbkdf2 : List Nat → List Nat → Nat → String → Nat → List Nat
  utf8Encode : String → List Nat
  utf8Decode : List Nat → String

/-- Modelled from the spec: the behaviour §4.2 guarantees for the
platform AEAD and codec — round-trip, byte-valued outputs, and the GCM
authentication semantics ("Fails (rejects) if: the key is wrong, the IV
is wrong, the ciphertext or its GCM authentication tag is corrupted"),
plus PBKDF2 sensitivity to a salt bit-flip (spec §8 property 5). -/
structure PlatformSound (P : Platform) : Prop where
  aead_roundtrip : ∀ k iv p, k.length = 32 → iv.length = 12 →
    P.aeadDecrypt k iv (P.aeadEncrypt k iv p) = some p
  aead_ct_bytes : ∀ k iv p, (∀ b ∈ k, b < 256) → (∀ b ∈ iv, b < 256) →
    (∀ b ∈ p, b < 256) → ∀ b ∈ P.aeadEncrypt k iv p, b < 256
  aead_tamper_ct : ∀ k iv p i j, k.length = 32 → iv.length = 12 →
    (∀ b ∈ p, b < 256) → i < (P.aeadEncrypt k iv p).length → j < 8 →
    P.aeadDecrypt k iv (flipBit (P.aeadEncrypt k iv p) i j) = none
  aead_wrong_key : ∀ k k' iv p, k.length = 32 → k'.length = 32 → iv.length = 12 →
    k' ≠ k → P.aeadDecrypt k' iv (P.aeadEncrypt k iv p) = none
  aead_wrong_iv : ∀ k iv iv' p, k.length = 32 → iv.length = 12 → iv'.length = 12 →
    iv' ≠ iv → P.aeadDecrypt k iv' (P.aeadEncrypt k iv p) = none
  utf8_roundtrip : ∀ s, P.utf8Decode (P.utf8Encode s) = s
  utf8_bytes : ∀ s, ∀ b ∈ P.utf8Encode s, b < 256
  pbkdf2_length : ∀ pw salt iter h bits, (P.pbkdf2 pw salt iter h bits).length = bits / 8
  pbkdf2_bytes : ∀ pw salt iter h bits, ∀ b ∈ P.pbkdf2 pw salt iter h bits, b < 256
  pbkdf2_salt_flip : ∀ pw salt i j, i < salt.length → j < 8 → (∀ b ∈ salt, b < 256) →
    P.pbkdf2 pw (flipBit salt i j) 100000 "SHA-256" 256 ≠ P.pbkdf2 pw salt 100000 "SHA-256" 256

/-! ## AES-GCM crypto provider (src/core/crypto/aes-gcm.ts)

The provider's constants and operations, translated from the class.
Randomness (`generateKey`, `generateIV`, `generateSalt`) is injected as
a byte supply, per the spec's design note that the ambient random
source is a capability passed into the provider. -/

/-- `ivLength` field of the class. -/
def ivLength : Nat := 12

/-- `keyLength` field of the class (bits). -/
def keyLength : Nat := 256

/-- `pbkdf2Iterations` field of the class. -/
def pbkdf2Iterations : Nat := 100000

/-- Salt length of `generateSalt` (bytes). -/
def saltLength : Nat := 16

/-- `EncryptionResult` of `interfaces.ts`. -/
structure EncryptionResult where
  ciphertext : String
  key : String
  iv : String
  algorithm : String
deriving DecidableEq, Repr

/-- `DecryptionInput` of `interfaces.ts` (the `algorithm` tag is
optional). -/
structure DecryptionInput where
  ciphertext : String
  key : String
  iv : String
  algorithm : Option String := none
deriving DecidableEq, Repr

/-- `generateKey` + `exportKey('raw')`: a fresh 256-bit key as its 32
raw bytes drawn from the injected random supply. -/
def generateKeyBytes (rnd : Nat → Nat) : List Nat :=
  (List.range (keyLength / 8)).map rnd

/-- `generateIV`: 12 random bytes. -/
def generateIV (rnd : Nat → Nat) : List Nat :=
  (List.range ivLength).map rnd

/-- `generateSalt`: 16 random bytes. -/
def generateSalt (rnd : Nat → Nat) : List Nat :=
  (List.range saltLength).map rnd

/-- `AesGcmCryptoProvider.encrypt`. -/
def AesGcm.encrypt (P : Platform) (rndKey rndIV : Nat → Nat) (plaintext : String) :
    EncryptionResult :=
  let key := generateKeyBytes rndKey
  let iv := generateIV rndIV
  let ciphertext := P.aeadEncrypt key iv (P.utf8Encode plaintext)
  { ciphertext := encodeBase64Url ciphertext
    key := encodeBase64Url key
    iv := encodeBase64Url iv
    algorithm := "AES-GCM" }

/-- `AesGcmCryptoProvider.decrypt`; `none` models a rejected promise
(from `decodeBase64Url`, `importKey`, or the GCM tag check). -/
def AesGcm.decrypt (P : Platform) (input : DecryptionInput) : Option String := do
  let keyBytes ← decodeBase64Url input.key
  let ivBytes ← decodeBase64Url input.iv
  let ctBytes ← decodeBase64Url input.ciphertext
  let pt ← P.aeadDecrypt keyBytes ivBytes ctBytes
  pure (P.utf8Decode pt)

/-- `AesGcmCryptoProvider.encryptWithPassword`: fresh salt and IV, key
derived by `deriveKeyFromPassword` (PBKDF2, `pbkdf2Iterations`,
SHA-256, `keyLength` bits), and the salt — not the derived key —
returned in the `key` field. -/
def AesGcm.encryptWithPassword (P : Platform) (rndSalt rndIV : Nat → Nat)
    (plaintext password : String) : EncryptionResult :=
  let salt := generateSalt rndSalt
  let iv := generateIV rndIV
  let key := P.pbkdf2 (P.utf8Encode password) salt pbkdf2Iterations "SHA-256" keyLength
  let ciphertext := P.aeadEncrypt key iv (P.utf8Encode plaintext)
  { ciphertext := encodeBase64Url ciphertext
    key := encodeBase64Url salt
    iv := encodeBase64Url iv
    algorithm := "AES-GCM-PBKDF2" }

/-- `AesGcmCryptoProvider.decryptWithPassword`: the `key` field is the
salt; re-derive the key and decrypt. -/
def AesGcm.decryptWithPassword (P : Platform) (input : DecryptionInput) (password : String) :
    Option String := do
  let salt ← decodeBase64Url input.key
  let iv ← decodeBase64Url input.iv
  let ct ← decodeBase64Url input.ciphertext
  let key := P.pbkdf2 (P.utf8Encode password) salt pbkdf2Iterations "SHA-256" keyLength
  let pt ← P.aeadDecrypt key iv ct
  pure (P.utf8Decode pt)

/-! ## Paste viewing flow (view.html IIFE in app.ts)

The decrypt-then-prompt retry loop, with the interactive pieces
(`decryptParts` outcome, `prompt` answers, password decryption) supplied
as oracles. -/

/-- Outcome of the viewing flow's decryption stage. -/
inductive ViewOutcome where
  | success (text : String)
  | failure (message : String)
deriving DecidableEq, Repr

/-- `MAX_PASSWORD_ATTEMPTS` of the viewing flow. -/
def MAX_PASSWORD_ATTEMPTS : Nat := 5

/-- The `while (attempts < MAX_PASSWORD_ATTEMPTS && !decryptionSuccess)`
loop.  `prompts n` is the answer to the `n`-th prompt (`none` =
dismissed; the empty string is falsy in JS, so both abort with the
"Password required" error); `tryPassword pw` is the password-decryption
attempt. -/
def viewPasswordLoop (tryPassword : String → Option String) (prompts : Nat → Option String)
    (attempts : Nat) : ViewOutcome :=
  if _h : attempts < MAX_PASSWORD_ATTEMPTS then
    match prompts (attempts + 1) with
    | none => .failure "Password required to decrypt this content."
    | some pw =>
      if pw = "" then .failure "Password required to decrypt this content."
      else
        match tryPassword pw with
        | some text => .success text
        | none =>
          if MAX_PASSWORD_ATTEMPTS ≤ attempts + 1 then
            .failure "Maximum password attempts exceeded. Incorrect password."
          else viewPasswordLoop tryPassword prompts (attempts + 1)
  else .failure "Failed to decrypt content with provided password."
termination_by MAX_PASSWORD_ATTEMPTS - attempts
decreasing_by simp_wf; omega

/-- The viewing flow's decryption stage: keyed decryption
(`decryptParts`) is attempted first; only on its failure does the
password-retry loop run, starting at `attempts = 0`. -/
def viewDecryptStage (keyedResult : Option String) (tryPassword : String → Option String)
    (prompts : Nat → Option String) : ViewOutcome :=
  match keyedResult with
  | some text => .success text
  | none => viewPasswordLoop tryPassword prompts 0

/-! ## Paste creation flow (save-button handler in app.ts) -/

/-- `PowChallenge` of the API models. -/
structure PowChallenge where
  challenge : String
  difficulty : Nat
deriving DecidableEq, Repr

/-- `PowSolution` of the API models. -/
structure PowSolution where
  challenge : String
  nonce : Nat
deriving DecidableEq, Repr

/-- Outcome of `apiClient.getPowChallenge()`: a challenge, `null`
(PoW disabled), or a thrown error. -/
inductive PowFetchOutcome where
  | ok (c : PowChallenge)
  | disabled
  | fetchError (message : String)

/-- Outcome of `powSolver.solve(challenge)`: a solution or a rejection
(including the cancellation error). -/
inductive SolveOutcome where
  | solved (s : PowSolution)
  | solveError (message : String)

/-- The `try { … getPowChallenge … solve … } catch { console.warn }`
block: `pow` starts as `null` and every failure path leaves it
`null`. -/
def powPhase (fetch : PowFetchOutcome) (solver : PowChallenge → SolveOutcome) :
    Option PowSolution :=
  match fetch with
  | .fetchError _ => none
  | .disabled => none
  | .ok c =>
    match solver c with
    | .solved s => some s
    | .solveError _ => none

/-- The body sent to `apiClient.createPaste`. -/
structure CreateRequest where
  ct : String
  iv : String
  expireTs : Nat
  singleView : Bool
  viewsAllowed : Nat
  mime : String
  pow : Option PowSolution

/-- The creation flow from after encryption to the `createPaste` call:
the PoW phase runs, its failures are swallowed, and the submission is
always built. -/
def creationSubmission (ctB64 ivB64 : String) (expireTs : Nat) (singleView : Bool)
    (views : Nat) (fetch : PowFetchOutcome) (solver : PowChallenge → SolveOutcome) :
    CreateRequest :=
  { ct := ctB64
    iv := ivB64
    expireTs := expireTs
    singleView := singleView
    viewsAllowed := if singleView then 1 else views
    mime := "text/plain"
    pow := powPhase fetch solver }

/-! ## Remaining definitions: proof helpers and a concrete platform

`b64CoreChunks` names the unpadded prefix of `b64EncodeChunks` (proof
helper).  `WellFormedB64Url` captures "well-formed base64url string" of
spec §8 property 6: a string that is the encoding of some byte list.
The `toy…` definitions build one concrete `Platform` satisfying
`PlatformSound`, used to evaluate the claims at concrete inputs. -/

/-- The characters of `b64EncodeChunks` before its `'='` padding. -/
def b64CoreChunks : List Nat → List Char
  | [] => []
  | [b1] => [b64Char (b1 / 4), b64Char (b1 % 4 * 16)]
  | [b1, b2] => [b64Char (b1 / 4), b64Char (b1 % 4 * 16 + b2 / 16), b64Char (b2 % 16 * 4)]
  | b1 :: b2 :: b3 :: rest =>
      b64Char (b1 / 4) :: b64Char (b1 % 4 * 16 + b2 / 16) ::
      b64Char (b2 % 16 * 4 + b3 / 64) :: b64Char (b3 % 64) :: b64CoreChunks rest

/-- A well-formed base64url string: the encoding of some byte list. -/
def WellFormedB64Url (s : String) : Prop :=
  ∃ bs, (∀ b ∈ bs, b < 256) ∧ s = encodeBase64Url bs

/-- `DecryptionInput` built from an `EncryptionResult` by passing its
`ciphertext`, `key` and `iv` fields through, with a chosen `algorithm`
tag. -/
def EncryptionResult.toDecryptionInput (r : EncryptionResult) (alg : Option String) :
    DecryptionInput :=
  { ciphertext := r.ciphertext, key := r.key, iv := r.iv, algorithm := alg }

/-- A concrete AEAD: the ciphertext carries the plaintext, the key, the
IV, and a one-byte checksum of the plaintext.  Not a cipher — only a
witness that the `PlatformSound` contract is satisfiable. -/
def toyAeadEncrypt (k iv p : List Nat) : List Nat :=
  p ++ k ++ iv ++ [p.sum % 256]

/-- Decryption for `toyAeadEncrypt`: parse and check every component. -/
def toyAeadDecrypt (k iv c : List Nat) : Option (List Nat) :=
  if k.length = 32 ∧ iv.length = 12 ∧ 45 ≤ c.length ∧
      c = c.take (c.length - 45) ++ k ++ iv ++ [(c.take (c.length - 45)).sum % 256]
  then some (c.take (c.length - 45)) else none

/-- A concrete key-derivation function sensitive to its inputs. -/
def toyPbkdf2 (pw salt : List Nat) (iterations : Nat) (_hash : String) (bits : Nat) :
    List Nat :=
  (List.range (bits / 8)).map (fun i => (pw.sum + salt.sum + iterations + i) % 256)

/-- A concrete injective text encoding: three bytes per character. -/
def toyUtf8Encode (s : String) : List Nat :=
  s.data.flatMap (fun ch => [ch.toNat / 65536 % 256, ch.toNat / 256 % 256, ch.toNat % 256])

/-- Left inverse of `toyUtf8Encode` (character list level). -/
def toyUtf8DecodeChars : List Nat → List Char
  | b1 :: b2 :: b3 :: rest => Char.ofNat (b1 * 65536 + b2 * 256 + b3) :: toyUtf8DecodeChars rest
  | _ => []

/-- Left inverse of `toyUtf8Encode`. -/
def toyUtf8Decode (bs : List Nat) : String := ⟨toyUtf8DecodeChars bs⟩

/-- The concrete platform bundle. -/
def toyPlatform : Platform :=
  { aeadEncrypt := toyAeadEncrypt
    aeadDecrypt := toyAeadDecrypt
    pbkdf2 := toyPbkdf2
    utf8Encode := toyUtf8Encode
    utf8Decode := toyUtf8Decode }

/-! ## Lemmas: the base64url codec -/

/-- Induction following the 3-byte chunking of the base64 encoder. -/
theorem byteChunks_induction {motive : List Nat → Prop} (h0 : motive []) (h1 : ∀ a, motive [a])
    (h2 : ∀ a b, motive [a, b])
    (h3 : ∀ a b c l, motive l → motive (a :: b :: c :: l)) : ∀ l, motive l
  | [] => h0
  | [a] => h1 a
  | [a, b] => h2 a b
  | a :: b :: c :: l => h3 a b c l (byteChunks_induction h0 h1 h2 h3 l)

/-- No alphabet character is `'='`. -/
theorem b64Char_ne_eqChar : ∀ n, n < 64 → ¬(b64Char n = '=') := by decide

/-- No alphabet character is ASCII whitespace. -/
theorem b64Char_not_ws : ∀ n, n < 64 → isB64Whitespace (b64Char n) = false := by decide

/-- Decoding inverts the alphabet table. -/
theorem b64DecodeVal_b64Char : ∀ n, n < 64 → b64DecodeVal (b64Char n) = some n := by decide

/-- Restoration inverts substitution on alphabet characters. -/
theorem urlRoundChar : ∀ n, n < 64 → urlRestoreChar (urlSubstChar (b64Char n)) = b64Char n := by
  decide

/-- Substituted alphabet characters avoid `'+'`, `'/'`, `'='`. -/
theorem urlSubstChar_b64Char_ne : ∀ n, n < 64 →
    urlSubstChar (b64Char n) ≠ '+' ∧ urlSubstChar (b64Char n) ≠ '/' ∧
    urlSubstChar (b64Char n) ≠ '=' := by decide

/-- Substitution neither creates nor destroys `'='`. -/
theorem urlSubstChar_eq_iff (c : Char) : urlSubstChar c = '=' ↔ c = '=' := by
  by_cases h1 : c = '+'
  · subst h1; decide
  · by_cases h2 : c = '/'
    · subst h2; decide
    · simp [urlSubstChar, h1, h2]

/-- Removing all trailing `'='` passes over a block ending in a
non-`'='` character. -/
theorem dropTrailingEq_append_last (z : List Char) (c : Char) (hc : ¬(c = '=')) (u : List Char) :
    dropTrailingEq ((z ++ [c]) ++ u) = (z ++ [c]) ++ dropTrailingEq u := by
  unfold dropTrailingEq
  rw [List.reverse_append, List.reverse_append, List.reverse_singleton, List.dropWhile_append]
  by_cases he : (List.dropWhile (fun c => c = '=') u.reverse).isEmpty
  · rw [if_pos he]
    rw [List.isEmpty_iff.mp he]
    simp [List.dropWhile_cons, hc]
  · rw [if_neg he]
    rw [List.isEmpty_iff] at he
    simp [List.reverse_append]

/-- Forgiving-base64 padding removal passes over a block ending in a
non-`'='` character. -/
theorem dropAtobPadding_append (z : List Char) (c : Char) (hc : ¬(c = '=')) (u : List Char)
    (hu : 2 ≤ u.length ∨ u = []) :
    dropAtobPadding ((z ++ [c]) ++ u) = (z ++ [c]) ++ dropAtobPadding u := by
  rcases hu with hu | rfl
  · obtain ⟨a, b, w, hw⟩ : ∃ a b w, u.reverse = a :: b :: w := by
      rcases hr : u.reverse with _ | ⟨a, _ | ⟨b, w⟩⟩
      · exfalso
        have h1 : u.length = 0 := by
          have := congrArg List.length hr; simpa using this
        omega
      · exfalso
        have h1 : u.length = 1 := by
          have := congrArg List.length hr; simpa using this
        omega
      · exact ⟨a, b, w, rfl⟩
    have hrw : ((z ++ [c]) ++ u).reverse = a :: b :: (w ++ (c :: z.reverse)) := by
      rw [List.reverse_append, hw, List.reverse_append, List.reverse_singleton]
      simp
    unfold dropAtobPadding
    rw [hrw, hw]
    by_cases ha : a = '=' <;> by_cases hb : b = '=' <;>
      simp [ha, hb, List.reverse_append]
  · simp only [List.append_nil]
    unfold dropAtobPadding
    rw [List.reverse_append, List.reverse_singleton, List.singleton_append]
    cases hzz : z.reverse with
    | nil => simp [hc]
    | cons y w => simp [hc]

/-- Padding to a multiple of four passes over a multiple-of-four
block. -/
theorem padToQuad_append_quad (x y : List Char) (hx : x.length % 4 = 0) :
    padToQuad (x ++ y) = x ++ padToQuad y := by
  unfold padToQuad
  rw [List.length_append]
  have h4 : (4 - (x.length + y.length) % 4) % 4 = (4 - y.length % 4) % 4 := by omega
  rw [h4, List.append_assoc]

/-- The encoder output is empty or at least 4 characters long. -/
theorem encode_nil_or_len (bs : List Nat) :
    b64EncodeChunks bs = [] ∨ 2 ≤ (b64EncodeChunks bs).length := by
  induction bs using byteChunks_induction with
  | h0 => left; rfl
  | h1 a => right; simp [b64EncodeChunks]
  | h2 a b => right; simp [b64EncodeChunks]
  | h3 a b c l ih => right; simp [b64EncodeChunks]

/-- The encoder output length is a multiple of four. -/
theorem encode_len_mod (bs : List Nat) : (b64EncodeChunks bs).length % 4 = 0 := by
  induction bs using byteChunks_induction with
  | h0 => rfl
  | h1 a => simp [b64EncodeChunks]
  | h2 a b => simp [b64EncodeChunks]
  | h3 a b c l ih => simp [b64EncodeChunks]; omega

/-- Every character of the encoder output is an alphabet character or
`'='`. -/
theorem encode_chars (bs : List Nat) (hb : ∀ b ∈ bs, b < 256) :
    ∀ c ∈ b64EncodeChunks bs, (∃ n, n < 64 ∧ c = b64Char n) ∨ c = '=' := by
  induction bs using byteChunks_induction with
  | h0 => intro c hc; simp [b64EncodeChunks] at hc
  | h1 a =>
    intro c hc
    have ha : a < 256 := hb a (by simp)
    simp [b64EncodeChunks] at hc
    rcases hc with h | h | h
    · exact Or.inl ⟨a / 4, by omega, h⟩
    · exact Or.inl ⟨a % 4 * 16, by omega, h⟩
    · exact Or.inr h
  | h2 a b =>
    intro c hc
    have ha : a < 256 := hb a (by simp)
    have hb2 : b < 256 := hb b (by simp)
    simp [b64EncodeChunks] at hc
    rcases hc with h | h | h | h
    · exact Or.inl ⟨a / 4, by omega, h⟩
    · exact Or.inl ⟨a % 4 * 16 + b / 16, by omega, h⟩
    · exact Or.inl ⟨b % 16 * 4, by omega, h⟩
    · exact Or.inr h
  | h3 a b c l ih =>
    intro x hx
    have ha : a < 256 := hb a (by simp)
    have hb2 : b < 256 := hb b (by simp)
    have hc : c < 256 := hb c (by simp)
    have hbl : ∀ y ∈ l, y < 256 := fun y hy => hb y (by simp [hy])
    simp only [b64EncodeChunks, List.mem_cons] at hx
    rcases hx with h | h | h | h | h
    · exact Or.inl ⟨a / 4, by omega, h⟩
    · exact Or.inl ⟨a % 4 * 16 + b / 16, by omega, h⟩
    · exact Or.inl ⟨b % 16 * 4 + c / 64, by omega, h⟩
    · exact Or.inl ⟨c % 64, by omega, h⟩
    · exact ih hbl x h

/-- Every character of the core (unpadded) encoder output is an
alphabet character. -/
theorem core_chars (bs : List Nat) (hb : ∀ b ∈ bs, b < 256) :
    ∀ c ∈ b64CoreChunks bs, ∃ n, n < 64 ∧ c = b64Char n := by
  induction bs using byteChunks_induction with
  | h0 => intro c hc; simp [b64CoreChunks] at hc
  | h1 a =>
    intro c hc
    have ha : a < 256 := hb a (by simp)
    simp [b64CoreChunks] at hc
    rcases hc with h | h
    · exact ⟨a / 4, by omega, h⟩
    · exact ⟨a % 4 * 16, by omega, h⟩
  | h2 a b =>
    intro c hc
    have ha : a < 256 := hb a (by simp)
    have hb2 : b < 256 := hb b (by simp)
    simp [b64CoreChunks] at hc
    rcases hc with h | h | h
    · exact ⟨a / 4, by omega, h⟩
    · exact ⟨a % 4 * 16 + b / 16, by omega, h⟩
    · exact ⟨b % 16 * 4, by omega, h⟩
  | h3 a b c l ih =>
    intro x hx
    have ha : a < 256 := hb a (by simp)
    have hb2 : b < 256 := hb b (by simp)
    have hc : c < 256 := hb c (by simp)
    have hbl : ∀ y ∈ l, y < 256 := fun y hy => hb y (by simp [hy])
    simp only [b64CoreChunks, List.mem_cons] at hx
    rcases hx with h | h | h | h | h
    · exact ⟨a / 4, by omega, h⟩
    · exact ⟨a % 4 * 16 + b / 16, by omega, h⟩
    · exact ⟨b % 16 * 4 + c / 64, by omega, h⟩
    · exact ⟨c % 64, by omega, h⟩
    · exact ih hbl x h

/-- The core length is never 1 modulo 4. -/
theorem core_len_mod_ne_one (bs : List Nat) : (b64CoreChunks bs).length % 4 ≠ 1 := by
  induction bs using byteChunks_induction with
  | h0 => simp [b64CoreChunks]
  | h1 a => simp [b64CoreChunks]
  | h2 a b => simp [b64CoreChunks]
  | h3 a b c l ih => simp [b64CoreChunks] at ih ⊢; omega

/-- Forgiving-base64 padding removal turns the padded encoder output
into the core. -/
theorem dropAtob_encode (bs : List Nat) :
    dropAtobPadding (b64EncodeChunks bs) = b64CoreChunks bs := by
  induction bs using byteChunks_induction with
  | h0 => rfl
  | h1 a => rfl
  | h2 a b =>
    have h3 : (b64Char (b % 16 * 4) = '=') = False := by
      simpa using b64Char_ne_eqChar (b % 16 * 4) (by omega)
    simp [b64EncodeChunks, b64CoreChunks, dropAtobPadding, h3]
  | h3 a b c l ih =>
    have hstep : b64EncodeChunks (a :: b :: c :: l) =
        ([b64Char (a / 4), b64Char (a % 4 * 16 + b / 16), b64Char (b % 16 * 4 + c / 64)] ++
          [b64Char (c % 64)]) ++ b64EncodeChunks l := by
      simp [b64EncodeChunks]
    rw [hstep,
      dropAtobPadding_append _ _ (b64Char_ne_eqChar (c % 64) (by omega)) _
        (Or.elim (encode_nil_or_len l) Or.inr Or.inl),
      ih]
    simp [b64CoreChunks]

/-- Trailing-`'='` removal turns the padded encoder output into the
core. -/
theorem dropTrailingEq_encode (bs : List Nat) :
    dropTrailingEq (b64EncodeChunks bs) = b64CoreChunks bs := by
  induction bs using byteChunks_induction with
  | h0 => rfl
  | h1 a =>
    have h2 : ¬(b64Char (a % 4 * 16) = '=') := b64Char_ne_eqChar _ (by omega)
    simp [b64EncodeChunks, b64CoreChunks, dropTrailingEq, List.dropWhile, h2]
  | h2 a b =>
    have h3 : ¬(b64Char (b % 16 * 4) = '=') := b64Char_ne_eqChar _ (by omega)
    simp [b64EncodeChunks, b64CoreChunks, dropTrailingEq, List.dropWhile, h3]
  | h3 a b c l ih =>
    have hstep : b64EncodeChunks (a :: b :: c :: l) =
        ([b64Char (a / 4), b64Char (a % 4 * 16 + b / 16), b64Char (b % 16 * 4 + c / 64)] ++
          [b64Char (c % 64)]) ++ b64EncodeChunks l := by
      simp [b64EncodeChunks]
    rw [hstep, dropTrailingEq_append_last _ _ (b64Char_ne_eqChar (c % 64) (by omega)) _, ih]
    simp [b64CoreChunks]

/-- Re-padding the core recovers the padded encoder output. -/
theorem padToQuad_core (bs : List Nat) :
    padToQuad (b64CoreChunks bs) = b64EncodeChunks bs := by
  induction bs using byteChunks_induction with
  | h0 => rfl
  | h1 a => simp [b64CoreChunks, b64EncodeChunks, padToQuad]
  | h2 a b => simp [b64CoreChunks, b64EncodeChunks, padToQuad]
  | h3 a b c l ih =>
    have hstep : b64CoreChunks (a :: b :: c :: l) =
        [b64Char (a / 4), b64Char (a % 4 * 16 + b / 16), b64Char (b % 16 * 4 + c / 64),
          b64Char (c % 64)] ++ b64CoreChunks l := by
      simp [b64CoreChunks]
    rw [hstep, padToQuad_append_quad _ _ (by simp), ih]
    simp [b64EncodeChunks]

/-- Decoding the core sextets recovers the bytes. -/
theorem core_decode (bs : List Nat) (hb : ∀ b ∈ bs, b < 256) :
    decodeQuads ((b64CoreChunks bs).map (fun c => (b64DecodeVal c).getD 0)) = bs := by
  induction bs using byteChunks_induction with
  | h0 => rfl
  | h1 a =>
    have ha : a < 256 := hb a (by simp)
    rw [show b64CoreChunks [a] = [b64Char (a / 4), b64Char (a % 4 * 16)] from rfl]
    rw [List.map_cons, List.map_cons, List.map_nil,
      b64DecodeVal_b64Char _ (by omega : a / 4 < 64),
      b64DecodeVal_b64Char _ (by omega : a % 4 * 16 < 64)]
    simp only [Option.getD_some, decodeQuads]
    refine List.cons_eq_cons.mpr ⟨by omega, rfl⟩
  | h2 a b =>
    have ha : a < 256 := hb a (by simp)
    have hb2 : b < 256 := hb b (by simp)
    rw [show b64CoreChunks [a, b] =
      [b64Char (a / 4), b64Char (a % 4 * 16 + b / 16), b64Char (b % 16 * 4)] from rfl]
    rw [List.map_cons, List.map_cons, List.map_cons, List.map_nil,
      b64DecodeVal_b64Char _ (by omega : a / 4 < 64),
      b64DecodeVal_b64Char _ (by omega : a % 4 * 16 + b / 16 < 64),
      b64DecodeVal_b64Char _ (by omega : b % 16 * 4 < 64)]
    simp only [Option.getD_some, decodeQuads]
    refine List.cons_eq_cons.mpr ⟨by omega, List.cons_eq_cons.mpr ⟨by omega, rfl⟩⟩
  | h3 a b c l ih =>
    have ha : a < 256 := hb a (by simp)
    have hb2 : b < 256 := hb b (by simp)
    have hc : c < 256 := hb c (by simp)
    have hbl : ∀ y ∈ l, y < 256 := fun y hy => hb y (by simp [hy])
    rw [show b64CoreChunks (a :: b :: c :: l) =
      b64Char (a / 4) :: b64Char (a % 4 * 16 + b / 16) :: b64Char (b % 16 * 4 + c / 64) ::
      b64Char (c % 64) :: b64CoreChunks l from rfl]
    rw [List.map_cons, List.map_cons, List.map_cons, List.map_cons,
      b64DecodeVal_b64Char _ (by omega : a / 4 < 64),
      b64DecodeVal_b64Char _ (by omega : a % 4 * 16 + b / 16 < 64),
      b64DecodeVal_b64Char _ (by omega : b % 16 * 4 + c / 64 < 64),
      b64DecodeVal_b64Char _ (by omega : c % 64 < 64)]
    simp only [Option.getD_some, decodeQuads]
    rw [ih hbl]
    refine List.cons_eq_cons.mpr ⟨by omega, List.cons_eq_cons.mpr ⟨by omega,
      List.cons_eq_cons.mpr ⟨by omega, rfl⟩⟩⟩

/-- The stripping phase of `atob` on the encoder output yields the
core. -/
theorem atobStripped_encode (bs : List Nat) (hb : ∀ b ∈ bs, b < 256) :
    atobStripped (b64EncodeChunks bs) = b64CoreChunks bs := by
  have hfil : (b64EncodeChunks bs).filter (fun c => !(isB64Whitespace c)) = b64EncodeChunks bs :=
    List.filter_eq_self.mpr (fun c hc => by
      rcases encode_chars bs hb c hc with ⟨n, hn, rfl⟩ | rfl
      · rw [b64Char_not_ws n hn]; rfl
      · rfl)
  unfold atobStripped
  simp only [hfil, encode_len_mod bs, if_pos]
  exact dropAtob_encode bs

/-- `atob` inverts the plain base64 encoder. -/
theorem atob_encode (bs : List Nat) (hb : ∀ b ∈ bs, b < 256) :
    atobChars (b64EncodeChunks bs) = some bs := by
  unfold atobChars
  rw [atobStripped_encode bs hb]
  rw [if_neg (core_len_mod_ne_one bs)]
  have hall : (b64CoreChunks bs).all (fun c => (b64DecodeVal c).isSome) = true := by
    rw [List.all_eq_true]
    intro c hc
    rcases core_chars bs hb c hc with ⟨n, hn, rfl⟩
    rw [b64DecodeVal_b64Char n hn]
    rfl
  rw [if_pos hall, core_decode bs hb]

/-- Trailing-`'='` removal commutes with the URL substitution. -/
theorem dropTrailingEq_map_subst (l : List Char) :
    dropTrailingEq (List.map urlSubstChar l) = List.map urlSubstChar (dropTrailingEq l) := by
  unfold dropTrailingEq
  rw [← List.map_reverse, List.dropWhile_map, ← List.map_reverse]
  have hp : ((fun c => decide (c = '=')) ∘ urlSubstChar) = (fun c : Char => decide (c = '=')) := by
    funext c
    exact decide_eq_decide.mpr (urlSubstChar_eq_iff c)
  rw [hp]

/-- The url-safe encoder output is the substituted core. -/
theorem encodeUrl_eq_subst_core (bs : List Nat) :
    encodeBase64UrlChars bs = (b64CoreChunks bs).map urlSubstChar := by
  unfold encodeBase64UrlChars
  rw [dropTrailingEq_map_subst, dropTrailingEq_encode]

/-- Round trip of the repository codec: decoding an encoded byte list
recovers it (character-list level). -/
theorem decodeUrl_encodeUrl (bs : List Nat) (hb : ∀ b ∈ bs, b < 256) :
    decodeBase64UrlChars (encodeBase64UrlChars bs) = some bs := by
  unfold decodeBase64UrlChars
  rw [encodeUrl_eq_subst_core, List.map_map]
  have h2 : (b64CoreChunks bs).map (urlRestoreChar ∘ urlSubstChar) = b64CoreChunks bs := by
    rw [List.map_congr_left (g := id), List.map_id]
    intro c hc
    rcases core_chars bs hb c hc with ⟨n, hn, rfl⟩
    exact urlRoundChar n hn
  rw [h2, padToQuad_core, atob_encode bs hb]

/-- Round trip of the repository codec at the `String` level. -/
theorem decodeBase64Url_encodeBase64Url (bs : List Nat) (hb : ∀ b ∈ bs, b < 256) :
    decodeBase64Url (encodeBase64Url bs) = some bs := by
  unfold decodeBase64Url encodeBase64Url
  exact decodeUrl_encodeUrl bs hb

/-- The url-safe encoder never emits `'+'`, `'/'`, or `'='`. -/
theorem encodeUrl_no_bad_chars (bs : List Nat) (hb : ∀ b ∈ bs, b < 256) :
    ∀ c ∈ encodeBase64UrlChars bs, c ≠ '+' ∧ c ≠ '/' ∧ c ≠ '=' := by
  rw [encodeUrl_eq_subst_core]
  intro c hc
  rw [List.mem_map] at hc
  obtain ⟨d, hd, rfl⟩ := hc
  obtain ⟨n, hn, rfl⟩ := core_chars bs hb d hd
  exact urlSubstChar_b64Char_ne n hn

/-- A decodable character is not `'='`. -/
theorem decodable_ne_eqChar (c : Char) (h : (b64DecodeVal c).isSome = true) : ¬(c = '=') := by
  intro hc
  subst hc
  simp [show b64DecodeVal '=' = none from by decide] at h

/-- A decodable character is not ASCII whitespace. -/
theorem decodable_not_ws (c : Char) (h : (b64DecodeVal c).isSome = true) :
    isB64Whitespace c = false := by
  by_contra hw
  have hw2 : isB64Whitespace c = true := by
    cases h2 : isB64Whitespace c
    · exact absurd h2 hw
    · rfl
  simp only [isB64Whitespace, Bool.or_eq_true, decide_eq_true_eq] at hw2
  rcases hw2 with h1 | h1 | h1 | h1 | h1 <;> subst h1 <;> exact absurd h (by decide)

/-- Padding removal leaves a list with no `'='` at all unchanged. -/
theorem dropAtobPadding_no_eq (l : List Char) (h : ∀ c ∈ l, ¬(c = '=')) :
    dropAtobPadding l = l := by
  unfold dropAtobPadding
  rcases hr : l.reverse with _ | ⟨a, _ | ⟨b, w⟩⟩
  · rfl
  · have ha : a ∈ l := by
      have : a ∈ l.reverse := by rw [hr]; simp
      simpa using this
    simp [h a ha]
  · have ha : a ∈ l := by
      have : a ∈ l.reverse := by rw [hr]; simp
      simpa using this
    simp [h a ha]

/-- `decodeBase64Url` succeeds on every string of base64url characters
whose length is not 1 modulo 4 (the amended availability property). -/
theorem decodeUrl_valid_chars (s : List Char)
    (hs : ∀ c ∈ s, (b64DecodeVal (urlRestoreChar c)).isSome = true)
    (hlen : s.length % 4 ≠ 1) :
    ∃ bs, decodeBase64UrlChars s = some bs := by
  unfold decodeBase64UrlChars
  set R := s.map urlRestoreChar with hR
  have hRdec : ∀ c ∈ R, (b64DecodeVal c).isSome = true := by
    intro c hc
    rw [hR, List.mem_map] at hc
    obtain ⟨d, hd, rfl⟩ := hc
    exact hs d hd
  have hRlen : R.length = s.length := by rw [hR]; simp
  have hpad : padToQuad R = R ++ List.replicate ((4 - R.length % 4) % 4) '=' := rfl
  set k := (4 - R.length % 4) % 4 with hk
  have hknot : k ≤ 2 := by
    rw [hk]
    omega
  have hnows : ∀ c ∈ padToQuad R, isB64Whitespace c = false := by
    intro c hc
    rw [hpad, List.mem_append] at hc
    rcases hc with hc | hc
    · exact decodable_not_ws c (hRdec c hc)
    · rw [List.eq_of_mem_replicate hc]
      decide
  have hfil : (padToQuad R).filter (fun c => !(isB64Whitespace c)) = padToQuad R :=
    List.filter_eq_self.mpr (fun c hc => by rw [hnows c hc]; rfl)
  have hlen0 : (padToQuad R).length % 4 = 0 := by
    rw [hpad]
    simp only [List.length_append, List.length_replicate]
    omega
  have hdroppad : dropAtobPadding (padToQuad R) = R := by
    rw [hpad]
    have hner : ∀ c ∈ R, ¬(c = '=') := fun c hc => decodable_ne_eqChar c (hRdec c hc)
    rcases hcase : k with _ | _ | _ | n
    · simp only [List.replicate_zero, List.append_nil]
      exact dropAtobPadding_no_eq R hner
    · -- one '=' appended
      have hRne : R ≠ [] := by
        intro hnil
        rw [hnil] at hk
        simp at hk
        omega
      obtain ⟨a, w, hw⟩ : ∃ a w, R.reverse = a :: w := by
        rcases hrr : R.reverse with _ | ⟨a, w⟩
        · exact absurd (by simpa using hrr) hRne
        · exact ⟨a, w, rfl⟩
      have hane : ¬(a = '=') := by
        refine hner a ?_
        have : a ∈ R.reverse := by rw [hw]; simp
        simpa using this
      unfold dropAtobPadding
      rw [show List.replicate 1 '=' = ['='] from rfl, List.reverse_append,
        List.reverse_singleton, List.singleton_append, hw]
      simp [hane]
      rw [show w.reverse ++ [a] = (a :: w).reverse from by simp, ← hw, List.reverse_reverse]
    · unfold dropAtobPadding
      rw [show List.replicate 2 '=' = ['=', '='] from rfl, List.reverse_append]
      simp
    · omega
  have hstrip : atobStripped (padToQuad R) = R := by
    unfold atobStripped
    simp only [hfil, hlen0, if_pos]
    exact hdroppad
  refine ⟨decodeQuads (R.map (fun c => (b64DecodeVal c).getD 0)), ?_⟩
  unfold atobChars
  rw [hstrip]
  rw [if_neg (by omega : ¬(R.length % 4 = 1))]
  rw [if_pos (List.all_eq_true.mpr hRdec)]

/-! ## Lemmas: bit flips -/

/-- `flipBit` keeps the length. -/
theorem flipBit_length (bs : List Nat) (i j : Nat) : (flipBit bs i j).length = bs.length :=
  List.length_set bs i _

/-- A power of two is positive, so xor with it moves every value. -/
theorem xor_flip_ne (x j : Nat) : x ^^^ (1 <<< j) ≠ x := by
  intro h
  have h2 : x ^^^ (x ^^^ (1 <<< j)) = x ^^^ x := by rw [h]
  rw [← Nat.xor_assoc, Nat.xor_self, Nat.zero_xor] at h2
  have h3 : 0 < 1 <<< j := by
    rw [Nat.shiftLeft_eq]
    have := pow_pos (by norm_num : (0 : ℕ) < 2) j
    omega
  omega

/-- Flipped bytes stay below 256. -/
theorem xor_flip_lt (x : Nat) (hx : x < 256) (j : Nat) (hj : j < 8) : x ^^^ (1 <<< j) < 256 := by
  have h1 : (1 <<< j) < 256 := by
    rw [Nat.shiftLeft_eq]
    have : 2 ^ j ≤ 2 ^ 7 := Nat.pow_le_pow_right (by omega) (by omega)
    omega
  exact Nat.xor_lt_two_pow (n := 8) hx h1

/-- A flip inside the left part of an append. -/
theorem flipBit_append_left (a b : List Nat) (i j : Nat) (h : i < a.length) :
    flipBit (a ++ b) i j = flipBit a i j ++ b := by
  unfold flipBit
  rw [List.getD_append a b 0 i h, List.set_append, if_pos h]

/-- A flip inside the right part of an append. -/
theorem flipBit_append_right (a b : List Nat) (i j : Nat) (h : a.length ≤ i) :
    flipBit (a ++ b) i j = a ++ flipBit b (i - a.length) j := by
  unfold flipBit
  rw [List.getD_append_right a b 0 i h, List.set_append, if_neg (by omega)]

/-- A flip at a position in range changes the list. -/
theorem flipBit_ne (bs : List Nat) (i j : Nat) (h : i < bs.length) : flipBit bs i j ≠ bs := by
  intro heq
  have h2 : (flipBit bs i j).getD i 0 = bs.getD i 0 := by rw [heq]
  have h3 : (flipBit bs i j).getD i 0 = bs.getD i 0 ^^^ (1 <<< j) := by
    unfold flipBit
    rw [List.getD_eq_getElem _ 0 (by rw [List.length_set]; exact h), List.getElem_set_self]
  rw [h3] at h2
  exact xor_flip_ne _ j h2

/-- The element sum after a flip: old value out, new value in. -/
theorem flipBit_sum (bs : List Nat) (i j : Nat) (h : i < bs.length) :
    (flipBit bs i j).sum + bs.getD i 0 = bs.sum + (bs.getD i 0 ^^^ (1 <<< j)) := by
  unfold flipBit
  have hdecomp : bs = bs.take i ++ bs[i] :: bs.drop (i + 1) := by
    rw [← List.drop_eq_getElem_cons h, List.take_append_drop]
  have hlt : List.length (List.take i bs) = i := by
    rw [List.length_take]; omega
  have hsetgen : ∀ v, bs.set i v = bs.take i ++ v :: bs.drop (i + 1) := by
    intro v
    conv_lhs => rw [hdecomp]
    rw [List.set_append, if_neg (by rw [hlt]; omega), hlt, Nat.sub_self]
    rfl
  have hsum0 : bs.sum = (bs.take i).sum + bs[i] + (bs.drop (i + 1)).sum := by
    conv_lhs => rw [hdecomp]
    rw [List.sum_append, List.sum_cons]
    ring
  rw [hsetgen, List.sum_append, List.sum_cons, hsum0, List.getD_eq_getElem _ 0 h]
  ring

/-- Flipping a byte changes the sum modulo 256 (bytes below 256). -/
theorem flipBit_sum_mod (bs : List Nat) (i j : Nat) (hi : i < bs.length) (hj : j < 8)
    (hb : ∀ b ∈ bs, b < 256) :
    (flipBit bs i j).sum % 256 ≠ bs.sum % 256 := by
  have hv : bs.getD i 0 < 256 := by
    rw [List.getD_eq_getElem _ 0 hi]
    exact hb _ (List.getElem_mem hi)
  have hv' : bs.getD i 0 ^^^ (1 <<< j) < 256 := xor_flip_lt _ hv j hj
  have hne : bs.getD i 0 ^^^ (1 <<< j) ≠ bs.getD i 0 := xor_flip_ne _ j
  have hsum := flipBit_sum bs i j hi
  omega

/-! ## Lemmas: the concrete platform satisfies the contract -/

/-- Valid characters stay below `0x110000`. -/
theorem char_toNat_lt (c : Char) : c.toNat < 1114112 := by
  have h : c.val.toNat.isValidChar := c.valid
  rcases h with h | ⟨h1, h2⟩
  · exact Nat.lt_trans h (by omega)
  · exact h2

/-- The toy text decoder inverts the toy text encoder. -/
theorem toyUtf8DecodeChars_encode (l : List Char) :
    toyUtf8DecodeChars (l.flatMap
      (fun ch => [ch.toNat / 65536 % 256, ch.toNat / 256 % 256, ch.toNat % 256])) = l := by
  induction l with
  | nil => rfl
  | cons ch rest ih =>
    rw [List.flatMap_cons]
    simp only [List.cons_append, List.nil_append]
    rw [show ∀ x y z L, toyUtf8DecodeChars (x :: y :: z :: L) =
      Char.ofNat (x * 65536 + y * 256 + z) :: toyUtf8DecodeChars L from fun _ _ _ _ => rfl]
    have hlt := char_toNat_lt ch
    have hrec : ch.toNat / 65536 % 256 * 65536 + ch.toNat / 256 % 256 * 256 + ch.toNat % 256 =
        ch.toNat := by omega
    rw [hrec, Char.ofNat_toNat, ih]

/-- Toy text codec round trip. -/
theorem toyUtf8_roundtrip (s : String) : toyUtf8Decode (toyUtf8Encode s) = s := by
  unfold toyUtf8Encode toyUtf8Decode
  rw [toyUtf8DecodeChars_encode]

/-- The toy text encoder emits bytes. -/
theorem toyUtf8_bytes (s : String) : ∀ b ∈ toyUtf8Encode s, b < 256 := by
  intro b hb
  unfold toyUtf8Encode at hb
  rw [List.mem_flatMap] at hb
  obtain ⟨ch, _, hmem⟩ := hb
  simp at hmem
  rcases hmem with h | h | h <;> omega

/-- The toy AEAD in right-associated form. -/
theorem toyAeadEncrypt_assoc (k iv p : List Nat) :
    toyAeadEncrypt k iv p = p ++ (k ++ (iv ++ [p.sum % 256])) := by
  unfold toyAeadEncrypt
  simp [List.append_assoc]

/-- Length of the toy AEAD ciphertext. -/
theorem toyAeadEncrypt_length (k iv p : List Nat) (hk : k.length = 32) (hiv : iv.length = 12) :
    (toyAeadEncrypt k iv p).length = p.length + 45 := by
  rw [toyAeadEncrypt_assoc]
  simp [hk, hiv]

/-- Toy AEAD round trip. -/
theorem toyAead_roundtrip (k iv p : List Nat) (hk : k.length = 32) (hiv : iv.length = 12) :
    toyAeadDecrypt k iv (toyAeadEncrypt k iv p) = some p := by
  have hclen := toyAeadEncrypt_length k iv p hk hiv
  have hq0 : (toyAeadEncrypt k iv p).length - 45 = p.length := by omega
  have htake : (toyAeadEncrypt k iv p).take p.length = p := by
    rw [toyAeadEncrypt_assoc]
    exact List.take_left p _
  unfold toyAeadDecrypt
  rw [hq0, htake, if_pos ⟨hk, hiv, by omega, by rw [toyAeadEncrypt_assoc, List.append_assoc,
    List.append_assoc]⟩]

/-- Toy AEAD bytes. -/
theorem toyAead_ct_bytes (k iv p : List Nat) (hk : ∀ b ∈ k, b < 256) (hiv : ∀ b ∈ iv, b < 256)
    (hp : ∀ b ∈ p, b < 256) : ∀ b ∈ toyAeadEncrypt k iv p, b < 256 := by
  intro b hb
  rw [toyAeadEncrypt_assoc] at hb
  simp only [List.mem_append, List.mem_singleton] at hb
  rcases hb with h | h | h | h
  · exact hp b h
  · exact hk b h
  · exact hiv b h
  · subst h; omega

/-- Toy AEAD: any single bit flip in the ciphertext makes decryption
fail. -/
theorem toyAead_tamper_ct (k iv p : List Nat) (i j : Nat) (hk : k.length = 32)
    (hiv : iv.length = 12) (hp : ∀ b ∈ p, b < 256)
    (hi : i < (toyAeadEncrypt k iv p).length) (hj : j < 8) :
    toyAeadDecrypt k iv (flipBit (toyAeadEncrypt k iv p) i j) = none := by
  have hclen := toyAeadEncrypt_length k iv p hk hiv
  rw [hclen] at hi
  have hc'len : (flipBit (toyAeadEncrypt k iv p) i j).length = p.length + 45 := by
    rw [flipBit_length, hclen]
  unfold toyAeadDecrypt
  rw [if_neg]
  intro hcond
  obtain ⟨-, -, -, heq⟩ := hcond
  have hq0 : (flipBit (toyAeadEncrypt k iv p) i j).length - 45 = p.length := by omega
  rw [hq0] at heq
  rcases Nat.lt_or_ge i p.length with hA | hnA
  · -- flip inside the plaintext region
    have hsplit : flipBit (toyAeadEncrypt k iv p) i j =
        flipBit p i j ++ (k ++ (iv ++ [p.sum % 256])) := by
      rw [toyAeadEncrypt_assoc, flipBit_append_left _ _ _ _ hA]
    have hqlen : (flipBit p i j).length = p.length := flipBit_length p i j
    have htake : (flipBit (toyAeadEncrypt k iv p) i j).take p.length = flipBit p i j := by
      rw [hsplit, ← hqlen, List.take_left]
    rw [htake, hsplit, List.append_assoc, List.append_assoc] at heq
    have h1 := List.append_cancel_left heq
    have h2 := List.append_cancel_left h1
    have h3 := List.append_cancel_left h2
    have h4 : p.sum % 256 = (flipBit p i j).sum % 256 := by
      simpa using h3
    exact flipBit_sum_mod p i j hA hj hp h4.symm
  rcases Nat.lt_or_ge i (p.length + 32) with hB | hnB
  · -- flip inside the embedded key region
    have hi' : i - p.length < k.length := by omega
    have hsplit : flipBit (toyAeadEncrypt k iv p) i j =
        p ++ (flipBit k (i - p.length) j ++ (iv ++ [p.sum % 256])) := by
      rw [toyAeadEncrypt_assoc, flipBit_append_right _ _ _ _ (by omega),
        flipBit_append_left _ _ _ _ hi']
    have htake : (flipBit (toyAeadEncrypt k iv p) i j).take p.length = p := by
      rw [hsplit, List.take_left]
    rw [htake, hsplit, List.append_assoc, List.append_assoc] at heq
    have h1 := List.append_cancel_left heq
    have h2 := (List.append_inj h1 (by rw [flipBit_length])).1
    exact flipBit_ne k (i - p.length) j hi' h2
  rcases Nat.lt_or_ge i (p.length + 44) with hC | hnC
  · -- flip inside the embedded IV region
    have hi' : i - p.length - 32 < iv.length := by omega
    have hsplit : flipBit (toyAeadEncrypt k iv p) i j =
        p ++ (k ++ (flipBit iv (i - p.length - 32) j ++ [p.sum % 256])) := by
      rw [toyAeadEncrypt_assoc, flipBit_append_right _ _ _ _ (by omega),
        flipBit_append_right _ _ _ _ (by rw [hk]; omega), hk,
        flipBit_append_left _ _ _ _ (by rw [hiv] at hi' ⊢; omega)]
    have htake : (flipBit (toyAeadEncrypt k iv p) i j).take p.length = p := by
      rw [hsplit, List.take_left]
    rw [htake, hsplit, List.append_assoc, List.append_assoc] at heq
    have h1 := List.append_cancel_left heq
    have h2 := List.append_cancel_left h1
    have h3 := (List.append_inj h2 (by rw [flipBit_length])).1
    exact flipBit_ne iv (i - p.length - 32) j hi' h3
  · -- flip of the checksum byte
    have hieq : i - p.length - 32 - 12 = 0 := by omega
    have hsplit : flipBit (toyAeadEncrypt k iv p) i j =
        p ++ (k ++ (iv ++ [p.sum % 256 ^^^ (1 <<< j)])) := by
      rw [toyAeadEncrypt_assoc, flipBit_append_right _ _ _ _ (by omega),
        flipBit_append_right _ _ _ _ (by rw [hk]; omega), hk,
        flipBit_append_right _ _ _ _ (by rw [hiv]; omega), hiv, hieq]
      rfl
    have htake : (flipBit (toyAeadEncrypt k iv p) i j).take p.length = p := by
      rw [hsplit, List.take_left]
    rw [htake, hsplit, List.append_assoc, List.append_assoc] at heq
    have h1 := List.append_cancel_left heq
    have h2 := List.append_cancel_left h1
    have h3 := List.append_cancel_left h2
    have h4 : p.sum % 256 ^^^ (1 <<< j) = p.sum % 256 := by
      simpa using h3
    exact xor_flip_ne (p.sum % 256) j h4

/-- Toy AEAD: any wrong key makes decryption fail. -/
theorem toyAead_wrong_key (k k' iv p : List Nat) (hk : k.length = 32) (hk' : k'.length = 32)
    (hiv : iv.length = 12) (hne : k' ≠ k) :
    toyAeadDecrypt k' iv (toyAeadEncrypt k iv p) = none := by
  have hclen := toyAeadEncrypt_length k iv p hk hiv
  unfold toyAeadDecrypt
  rw [if_neg]
  intro hcond
  obtain ⟨-, -, -, heq⟩ := hcond
  have hq0 : (toyAeadEncrypt k iv p).length - 45 = p.length := by omega
  have htake : (toyAeadEncrypt k iv p).take p.length = p := by
    rw [toyAeadEncrypt_assoc]
    exact List.take_left p _
  rw [hq0, htake] at heq
  rw [toyAeadEncrypt_assoc, List.append_assoc, List.append_assoc] at heq
  have h1 := List.append_cancel_left heq
  have h2 := (List.append_inj h1 (by rw [hk, hk'])).1
  exact hne h2.symm

/-- Toy AEAD: any wrong IV makes decryption fail. -/
theorem toyAead_wrong_iv (k iv iv' p : List Nat) (hk : k.length = 32) (hiv : iv.length = 12)
    (hiv' : iv'.length = 12) (hne : iv' ≠ iv) :
    toyAeadDecrypt k iv' (toyAeadEncrypt k iv p) = none := by
  have hclen := toyAeadEncrypt_length k iv p hk hiv
  unfold toyAeadDecrypt
  rw [if_neg]
  intro hcond
  obtain ⟨-, -, -, heq⟩ := hcond
  have hq0 : (toyAeadEncrypt k iv p).length - 45 = p.length := by omega
  have htake : (toyAeadEncrypt k iv p).take p.length = p := by
    rw [toyAeadEncrypt_assoc]
    exact List.take_left p _
  rw [hq0, htake] at heq
  rw [toyAeadEncrypt_assoc, List.append_assoc, List.append_assoc] at heq
  have h1 := List.append_cancel_left heq
  have h2 := List.append_cancel_left h1
  have h3 := (List.append_inj h2 (by rw [hiv, hiv'])).1
  exact hne h3.symm

/-- Toy key derivation: output length. -/
theorem toyPbkdf2_length (pw salt : List Nat) (iter : Nat) (h : String) (bits : Nat) :
    (toyPbkdf2 pw salt iter h bits).length = bits / 8 := by
  simp [toyPbkdf2]

/-- Toy key derivation: output bytes. -/
theorem toyPbkdf2_bytes (pw salt : List Nat) (iter : Nat) (h : String) (bits : Nat) :
    ∀ b ∈ toyPbkdf2 pw salt iter h bits, b < 256 := by
  intro b hb
  simp [toyPbkdf2] at hb
  obtain ⟨i, _, rfl⟩ := hb
  omega

/-- First byte of the toy derived key. -/
theorem toyPbkdf2_head (pw salt : List Nat) (iter : Nat) (h : String) :
    (toyPbkdf2 pw salt iter h 256).getD 0 0 = (pw.sum + salt.sum + iter) % 256 := by
  unfold toyPbkdf2
  rw [List.getD_eq_getElem _ _ (by simp), List.getElem_map, List.getElem_range]
  omega

/-- Toy key derivation: flipping a salt bit changes the derived key. -/
theorem toyPbkdf2_salt_flip (pw salt : List Nat) (i j : Nat) (hi : i < salt.length) (hj : j < 8)
    (hs : ∀ b ∈ salt, b < 256) :
    toyPbkdf2 pw (flipBit salt i j) 100000 "SHA-256" 256 ≠
      toyPbkdf2 pw salt 100000 "SHA-256" 256 := by
  intro heq
  have h0 : (toyPbkdf2 pw (flipBit salt i j) 100000 "SHA-256" 256).getD 0 0 =
      (toyPbkdf2 pw salt 100000 "SHA-256" 256).getD 0 0 := by rw [heq]
  rw [toyPbkdf2_head, toyPbkdf2_head] at h0
  have hflip := flipBit_sum_mod salt i j hi hj hs
  omega

/-- The concrete platform satisfies the spec's platform contract. -/
theorem toyPlatform_sound : PlatformSound toyPlatform where
  aead_roundtrip := toyAead_roundtrip
  aead_ct_bytes := toyAead_ct_bytes
  aead_tamper_ct := fun k iv p i j hk hiv hp hi hj =>
    toyAead_tamper_ct k iv p i j hk hiv hp hi hj
  aead_wrong_key := toyAead_wrong_key
  aead_wrong_iv := toyAead_wrong_iv
  utf8_roundtrip := toyUtf8_roundtrip
  utf8_bytes := toyUtf8_bytes
  pbkdf2_length := toyPbkdf2_length
  pbkdf2_bytes := toyPbkdf2_bytes
  pbkdf2_salt_flip := toyPbkdf2_salt_flip

/-! ## Lemmas: the PoW solver loop -/

/-- Soundness of the un-cancelled solver loop: a returned nonce is at
or after the start, satisfies the target, and every skipped nonce
fails it. -/
theorem solveRec_spec (c : List Nat) (d : Nat) :
    ∀ fuel start n, solveRec c d fuel start = some n →
      start ≤ n ∧ d ≤ powNonceBits c n ∧
        ∀ m, start ≤ m → m < n → powNonceBits c m < d := by
  intro fuel
  induction fuel with
  | zero => intro start n h; simp [solveRec] at h
  | succ f ih =>
    intro start n h
    by_cases hb : d ≤ powNonceBits c start
    · have hstep : powSolveStep ⟨false⟩ c d start = .resolved start := by
        simp [powSolveStep, hb]
      rw [solveRec, hstep] at h
      have hn : start = n := by simpa using h
      subst hn
      exact ⟨Nat.le_refl _, hb, fun m hm1 hm2 => absurd hm2 (by omega)⟩
    · have hstep : powSolveStep ⟨false⟩ c d start = .nextIteration (start + 1) := by
        simp [powSolveStep, hb]
      rw [solveRec, hstep] at h
      obtain ⟨h1, h2, h3⟩ := ih (start + 1) n h
      refine ⟨by omega, h2, ?_⟩
      intro m hm1 hm2
      rcases Nat.eq_or_lt_of_le hm1 with heq | hlt
      · subst heq; omega
      · exact h3 m (by omega) hm2

/-- Completeness: if some nonce in range satisfies the target, the loop
resolves. -/
theorem solveRec_terminates (c : List Nat) (d : Nat) :
    ∀ fuel start, (∃ n, start ≤ n ∧ n < start + fuel ∧ d ≤ powNonceBits c n) →
      ∃ r, solveRec c d fuel start = some r := by
  intro fuel
  induction fuel with
  | zero =>
    intro start h
    obtain ⟨n, h1, h2, _⟩ := h
    omega
  | succ f ih =>
    intro start h
    obtain ⟨n, h1, h2, h3⟩ := h
    by_cases hb : d ≤ powNonceBits c start
    · refine ⟨start, ?_⟩
      have hstep : powSolveStep ⟨false⟩ c d start = .resolved start := by
        simp [powSolveStep, hb]
      rw [solveRec, hstep]
    · have hstep : powSolveStep ⟨false⟩ c d start = .nextIteration (start + 1) := by
        simp [powSolveStep, hb]
      have hne : start ≠ n := by
        intro heq; subst heq; exact hb h3
      obtain ⟨r, hr⟩ := ih (start + 1) ⟨n, by omega, by omega, h3⟩
      refine ⟨r, ?_⟩
      rw [solveRec, hstep]
      exact hr

/-! ## Lemmas: the password-retry loop of the viewing flow -/

/-- The loop result does not depend on prompt answers beyond the
attempt bound. -/
theorem viewPasswordLoop_congr (tryPw : String → Option String) (p p' : Nat → Option String)
    (hagree : ∀ n, n ≤ MAX_PASSWORD_ATTEMPTS → p n = p' n) :
    ∀ a, viewPasswordLoop tryPw p a = viewPasswordLoop tryPw p' a := by
  have H : ∀ fuel a, MAX_PASSWORD_ATTEMPTS - a ≤ fuel →
      viewPasswordLoop tryPw p a = viewPasswordLoop tryPw p' a := by
    intro fuel
    induction fuel with
    | zero =>
      intro a ha
      conv_lhs => rw [viewPasswordLoop]
      conv_rhs => rw [viewPasswordLoop]
      have hge : ¬(a < MAX_PASSWORD_ATTEMPTS) := by omega
      rw [dif_neg hge, dif_neg hge]
    | succ f ihf =>
      intro a ha
      conv_lhs => rw [viewPasswordLoop]
      conv_rhs => rw [viewPasswordLoop]
      by_cases hlt : a < MAX_PASSWORD_ATTEMPTS
      · rw [dif_pos hlt, dif_pos hlt]
        rw [hagree (a + 1) (by omega)]
        cases p' (a + 1) with
        | none => rfl
        | some pw =>
          simp only []
          by_cases hemp : pw = ""
          · rw [if_pos hemp, if_pos hemp]
          · rw [if_neg hemp, if_neg hemp]
            cases tryPw pw with
            | some text => rfl
            | none =>
              simp only []
              by_cases hmax : MAX_PASSWORD_ATTEMPTS ≤ a + 1
              · rw [if_pos hmax, if_pos hmax]
              · rw [if_neg hmax, if_neg hmax]
                exact ihf (a + 1) (by omega)
      · rw [dif_neg hlt, dif_neg hlt]
  exact fun a => H MAX_PASSWORD_ATTEMPTS a (by omega)

/-- If every password fails and every prompt is answered, the loop
terminates with the max-attempts error. -/
theorem viewPasswordLoop_all_wrong (tryPw : String → Option String)
    (prompts : Nat → Option String) (hwrong : ∀ pw, tryPw pw = none)
    (hprompts : ∀ n, 1 ≤ n → n ≤ MAX_PASSWORD_ATTEMPTS →
      ∃ pw, prompts n = some pw ∧ pw ≠ "") :
    ∀ a, a < MAX_PASSWORD_ATTEMPTS →
      viewPasswordLoop tryPw prompts a =
        .failure "Maximum password attempts exceeded. Incorrect password." := by
  have H : ∀ fuel a, MAX_PASSWORD_ATTEMPTS - a ≤ fuel → a < MAX_PASSWORD_ATTEMPTS →
      viewPasswordLoop tryPw prompts a =
        .failure "Maximum password attempts exceeded. Incorrect password." := by
    intro fuel
    induction fuel with
    | zero => intro a ha hlt; omega
    | succ f ihf =>
      intro a ha hlt
      conv_lhs => rw [viewPasswordLoop]
      rw [dif_pos hlt]
      obtain ⟨pw, hpw, hne⟩ := hprompts (a + 1) (by omega) (by omega)
      rw [hpw]
      simp only []
      rw [if_neg hne, hwrong pw]
      simp only []
      by_cases hmax : MAX_PASSWORD_ATTEMPTS ≤ a + 1
      · rw [if_pos hmax]
      · rw [if_neg hmax]
        exact ihf (a + 1) (by omega) (by omega)
  exact fun a hlt => H MAX_PASSWORD_ATTEMPTS a (by omega) hlt


/-- Bytes stay bytes under a flip. -/
theorem flipBit_bytes (bs : List Nat) (i j : Nat) (hb : ∀ b ∈ bs, b < 256) (hi : i < bs.length)
    (hj : j < 8) : ∀ b ∈ flipBit bs i j, b < 256 := by
  intro b hbm
  rcases List.mem_or_eq_of_mem_set hbm with h | h
  · exact hb b h
  · subst h
    refine xor_flip_lt _ ?_ j hj
    rw [List.getD_eq_getElem _ 0 hi]
    exact hb _ (List.getElem_mem hi)

/-- The generated key material is 32 bytes. -/
theorem generateKeyBytes_length (rnd : Nat → Nat) : (generateKeyBytes rnd).length = 32 := by
  simp [generateKeyBytes, keyLength]

/-- The generated key material consists of bytes when the supply does. -/
theorem generateKeyBytes_bytes (rnd : Nat → Nat) (h : ∀ n, rnd n < 256) :
    ∀ b ∈ generateKeyBytes rnd, b < 256 := by
  intro b hb
  simp [generateKeyBytes] at hb
  obtain ⟨n, _, rfl⟩ := hb
  exact h n

/-- The generated IV is 12 bytes. -/
theorem generateIV_length (rnd : Nat → Nat) : (generateIV rnd).length = 12 := by
  simp [generateIV, ivLength]

/-- The generated IV consists of bytes when the supply does. -/
theorem generateIV_bytes (rnd : Nat → Nat) (h : ∀ n, rnd n < 256) :
    ∀ b ∈ generateIV rnd, b < 256 := by
  intro b hb
  simp [generateIV] at hb
  obtain ⟨n, _, rfl⟩ := hb
  exact h n

/-- The generated salt is 16 bytes. -/
theorem generateSalt_length (rnd : Nat → Nat) : (generateSalt rnd).length = 16 := by
  simp [generateSalt, saltLength]

/-- The generated salt consists of bytes when the supply does. -/
theorem generateSalt_bytes (rnd : Nat → Nat) (h : ∀ n, rnd n < 256) :
    ∀ b ∈ generateSalt rnd, b < 256 := by
  intro b hb
  simp [generateSalt] at hb
  obtain ⟨n, _, rfl⟩ := hb
  exact h n

/-- C1: for every UTF-8 string `s`, including the empty string,
`decrypt` applied to the `EncryptionResult` produced by `encrypt s` —
passing its ciphertext, key, and iv fields as the `DecryptionInput` —
returns `s`. -/
theorem C1_keyed_roundtrip (P : Platform) (hP : PlatformSound P) (rndKey rndIV : Nat → Nat)
    (hrk : ∀ n, rndKey n < 256) (hriv : ∀ n, rndIV n < 256) (s : String) (alg : Option String) :
    AesGcm.decrypt P ((AesGcm.encrypt P rndKey rndIV s).toDecryptionInput alg) = some s := by
  have hkbytes := generateKeyBytes_bytes rndKey hrk
  have hivbytes := generateIV_bytes rndIV hriv
  have hct : ∀ b ∈ P.aeadEncrypt (generateKeyBytes rndKey) (generateIV rndIV)
      (P.utf8Encode s), b < 256 :=
    hP.aead_ct_bytes _ _ _ hkbytes hivbytes (hP.utf8_bytes s)
  unfold AesGcm.encrypt AesGcm.decrypt EncryptionResult.toDecryptionInput
  simp only [decodeBase64Url_encodeBase64Url _ hkbytes,
    decodeBase64Url_encodeBase64Url _ hivbytes,
    decodeBase64Url_encodeBase64Url _ hct, Option.bind_eq_bind, Option.some_bind]
  rw [hP.aead_roundtrip _ _ _ (generateKeyBytes_length rndKey) (generateIV_length rndIV)]
  simp only [Option.some_bind]
  rw [hP.utf8_roundtrip s]
  rfl

/-- C1 witness: the round trip evaluated on the concrete platform. -/
theorem C1_keyed_roundtrip_witness :
    AesGcm.decrypt toyPlatform
      ((AesGcm.encrypt toyPlatform (fun _ => 0) (fun _ => 0) "Hi").toDecryptionInput
        (some "AES-GCM")) = some "Hi" :=
  C1_keyed_roundtrip toyPlatform toyPlatform_sound (fun _ => 0) (fun _ => 0)
    (by intro n; show (0 : Nat) < 256; omega) (by intro n; show (0 : Nat) < 256; omega)
    "Hi" (some "AES-GCM")

/-- C10: the outcome of `decrypt` and of `decryptWithPassword` is
independent of the optional `algorithm` field: inputs agreeing on
ciphertext, key and iv produce the same outcome. -/
theorem C10_algorithm_independent (P : Platform) (i1 i2 : DecryptionInput) (pw : String)
    (hct : i1.ciphertext = i2.ciphertext) (hkey : i1.key = i2.key) (hiv : i1.iv = i2.iv) :
    AesGcm.decrypt P i1 = AesGcm.decrypt P i2 ∧
      AesGcm.decryptWithPassword P i1 pw = AesGcm.decryptWithPassword P i2 pw := by
  cases i1
  cases i2
  simp only at hct hkey hiv
  subst hct
  subst hkey
  subst hiv
  exact ⟨rfl, rfl⟩

/-- C10 witness: two concrete inputs differing only in the algorithm
tag decrypt identically. -/
theorem C10_algorithm_independent_witness :
    AesGcm.decrypt toyPlatform
        { ciphertext := "AA", key := "AA", iv := "AA", algorithm := none } =
      AesGcm.decrypt toyPlatform
        { ciphertext := "AA", key := "AA", iv := "AA", algorithm := some "X" } ∧
      AesGcm.decryptWithPassword toyPlatform
          { ciphertext := "AA", key := "AA", iv := "AA", algorithm := none } "pw" =
        AesGcm.decryptWithPassword toyPlatform
          { ciphertext := "AA", key := "AA", iv := "AA", algorithm := some "X" } "pw" :=
  C10_algorithm_independent toyPlatform
    { ciphertext := "AA", key := "AA", iv := "AA", algorithm := none }
    { ciphertext := "AA", key := "AA", iv := "AA", algorithm := some "X" } "pw" rfl rfl rfl

/-- C3 counterexample: on input `"a"` the codec's internal `atob` call
throws (the claim says `decodeBase64Url` never throws). -/
theorem C3_counterexample : decodeBase64Url "a" = none := by decide

/-- C3 amended: `decodeBase64Url` returns bytes without throwing on
every string of base64url-alphabet characters whose length is not 1
modulo 4; other inputs can make the internal `atob` throw. -/
theorem C3_amended (s : String)
    (hchars : ∀ c ∈ s.data, (b64DecodeVal (urlRestoreChar c)).isSome = true)
    (hlen : s.data.length % 4 ≠ 1) :
    ∃ bs, decodeBase64Url s = some bs := by
  unfold decodeBase64Url
  exact decodeUrl_valid_chars s.data hchars hlen

/-- C3 amended witness: a concrete valid input decodes. -/
theorem C3_amended_witness : ∃ bs, decodeBase64Url "ab-_" = some bs :=
  C3_amended "ab-_" (by decide) (by decide)

/-- C2: flipping any single bit in the decoded ciphertext, IV, or
key/salt bytes of a valid `EncryptionResult` and then calling the
corresponding decrypt operation (keyed `decrypt`, or
`decryptWithPassword` with the correct password) makes that call fail
rather than return a plaintext. -/
theorem C2_tamper_sensitivity (P : Platform) (hP : PlatformSound P)
    (rndKey rndIV rndSalt : Nat → Nat)
    (hrk : ∀ n, rndKey n < 256) (hriv : ∀ n, rndIV n < 256) (hrs : ∀ n, rndSalt n < 256)
    (s pw : String) (i j : Nat) (hj : j < 8) :
    (i < (P.aeadEncrypt (generateKeyBytes rndKey) (generateIV rndIV)
        (P.utf8Encode s)).length →
      AesGcm.decrypt P
        { ciphertext := encodeBase64Url (flipBit (P.aeadEncrypt (generateKeyBytes rndKey)
            (generateIV rndIV) (P.utf8Encode s)) i j)
          key := (AesGcm.encrypt P rndKey rndIV s).key
          iv := (AesGcm.encrypt P rndKey rndIV s).iv
          algorithm := none } = none) ∧
    (i < 32 →
      AesGcm.decrypt P
        { ciphertext := (AesGcm.encrypt P rndKey rndIV s).ciphertext
          key := encodeBase64Url (flipBit (generateKeyBytes rndKey) i j)
          iv := (AesGcm.encrypt P rndKey rndIV s).iv
          algorithm := none } = none) ∧
    (i < 12 →
      AesGcm.decrypt P
        { ciphertext := (AesGcm.encrypt P rndKey rndIV s).ciphertext
          key := (AesGcm.encrypt P rndKey rndIV s).key
          iv := encodeBase64Url (flipBit (generateIV rndIV) i j)
          algorithm := none } = none) ∧
    (i < (P.aeadEncrypt (P.pbkdf2 (P.utf8Encode pw) (generateSalt rndSalt) pbkdf2Iterations
        "SHA-256" keyLength) (generateIV rndIV) (P.utf8Encode s)).length →
      AesGcm.decryptWithPassword P
        { ciphertext := encodeBase64Url (flipBit (P.aeadEncrypt (P.pbkdf2 (P.utf8Encode pw)
            (generateSalt rndSalt) pbkdf2Iterations "SHA-256" keyLength) (generateIV rndIV)
            (P.utf8Encode s)) i j)
          key := (AesGcm.encryptWithPassword P rndSalt rndIV s pw).key
          iv := (AesGcm.encryptWithPassword P rndSalt rndIV s pw).iv
          algorithm := none } pw = none) ∧
    (i < 16 →
      AesGcm.decryptWithPassword P
        { ciphertext := (AesGcm.encryptWithPassword P rndSalt rndIV s pw).ciphertext
          key := encodeBase64Url (flipBit (generateSalt rndSalt) i j)
          iv := (AesGcm.encryptWithPassword P rndSalt rndIV s pw).iv
          algorithm := none } pw = none) ∧
    (i < 12 →
      AesGcm.decryptWithPassword P
        { ciphertext := (AesGcm.encryptWithPassword P rndSalt rndIV s pw).ciphertext
          key := (AesGcm.encryptWithPassword P rndSalt rndIV s pw).key
          iv := encodeBase64Url (flipBit (generateIV rndIV) i j)
          algorithm := none } pw = none) := by
  have hkbytes := generateKeyBytes_bytes rndKey hrk
  have hivbytes := generateIV_bytes rndIV hriv
  have hsaltbytes := generateSalt_bytes rndSalt hrs
  have hklen := generateKeyBytes_length rndKey
  have hivlen := generateIV_length rndIV
  have hsaltlen := generateSalt_length rndSalt
  have hct : ∀ b ∈ P.aeadEncrypt (generateKeyBytes rndKey) (generateIV rndIV)
      (P.utf8Encode s), b < 256 :=
    hP.aead_ct_bytes _ _ _ hkbytes hivbytes (hP.utf8_bytes s)
  have hpkbytes : ∀ b ∈ P.pbkdf2 (P.utf8Encode pw) (generateSalt rndSalt) pbkdf2Iterations
      "SHA-256" keyLength, b < 256 := hP.pbkdf2_bytes _ _ _ _ _
  have hpklen : (P.pbkdf2 (P.utf8Encode pw) (generateSalt rndSalt) pbkdf2Iterations
      "SHA-256" keyLength).length = 32 := by
    rw [hP.pbkdf2_length]
    rfl
  have hct' : ∀ b ∈ P.aeadEncrypt (P.pbkdf2 (P.utf8Encode pw) (generateSalt rndSalt)
      pbkdf2Iterations "SHA-256" keyLength) (generateIV rndIV) (P.utf8Encode s), b < 256 :=
    hP.aead_ct_bytes _ _ _ hpkbytes hivbytes (hP.utf8_bytes s)
  refine ⟨?_, ?_, ?_, ?_, ?_, ?_⟩
  · intro hi
    unfold AesGcm.decrypt AesGcm.encrypt
    simp only [decodeBase64Url_encodeBase64Url _ hkbytes,
      decodeBase64Url_encodeBase64Url _ hivbytes,
      decodeBase64Url_encodeBase64Url _ (flipBit_bytes _ i j hct hi hj),
      Option.bind_eq_bind, Option.some_bind]
    rw [hP.aead_tamper_ct _ _ _ i j hklen hivlen (hP.utf8_bytes s) hi hj]
    rfl
  · intro hi
    unfold AesGcm.decrypt AesGcm.encrypt
    simp only [decodeBase64Url_encodeBase64Url _ hct,
      decodeBase64Url_encodeBase64Url _ hivbytes,
      decodeBase64Url_encodeBase64Url _
        (flipBit_bytes _ i j hkbytes (by rw [hklen]; exact hi) hj),
      Option.bind_eq_bind, Option.some_bind]
    rw [hP.aead_wrong_key _ _ _ _ hklen
      (by rw [flipBit_length]; exact hklen) hivlen
      (flipBit_ne _ i j (by rw [hklen]; exact hi))]
    rfl
  · intro hi
    unfold AesGcm.decrypt AesGcm.encrypt
    simp only [decodeBase64Url_encodeBase64Url _ hct,
      decodeBase64Url_encodeBase64Url _ hkbytes,
      decodeBase64Url_encodeBase64Url _
        (flipBit_bytes _ i j hivbytes (by rw [hivlen]; exact hi) hj),
      Option.bind_eq_bind, Option.some_bind]
    rw [hP.aead_wrong_iv _ _ _ _ hklen hivlen
      (by rw [flipBit_length]; exact hivlen)
      (flipBit_ne _ i j (by rw [hivlen]; exact hi))]
    rfl
  · intro hi
    unfold AesGcm.decryptWithPassword AesGcm.encryptWithPassword
    simp only [decodeBase64Url_encodeBase64Url _ hsaltbytes,
      decodeBase64Url_encodeBase64Url _ hivbytes,
      decodeBase64Url_encodeBase64Url _ (flipBit_bytes _ i j hct' hi hj),
      Option.bind_eq_bind, Option.some_bind]
    rw [hP.aead_tamper_ct _ _ _ i j hpklen hivlen (hP.utf8_bytes s) hi hj]
    rfl
  · intro hi
    unfold AesGcm.decryptWithPassword AesGcm.encryptWithPassword
    simp only [decodeBase64Url_encodeBase64Url _ hct',
      decodeBase64Url_encodeBase64Url _ hivbytes,
      decodeBase64Url_encodeBase64Url _
        (flipBit_bytes _ i j hsaltbytes (by rw [hsaltlen]; exact hi) hj),
      Option.bind_eq_bind, Option.some_bind]
    simp only [show pbkdf2Iterations = 100000 from rfl, show keyLength = 256 from rfl]
    rw [hP.aead_wrong_key _ _ _ _ (by exact hpklen)
      (by rw [hP.pbkdf2_length])
      hivlen
      (hP.pbkdf2_salt_flip (P.utf8Encode pw) (generateSalt rndSalt) i j
        (by rw [hsaltlen]; exact hi) hj hsaltbytes)]
    rfl
  · intro hi
    unfold AesGcm.decryptWithPassword AesGcm.encryptWithPassword
    simp only [decodeBase64Url_encodeBase64Url _ hct',
      decodeBase64Url_encodeBase64Url _ hsaltbytes,
      decodeBase64Url_encodeBase64Url _
        (flipBit_bytes _ i j hivbytes (by rw [hivlen]; exact hi) hj),
      Option.bind_eq_bind, Option.some_bind]
    rw [hP.aead_wrong_iv _ _ _ _ hpklen hivlen
      (by rw [flipBit_length]; exact hivlen)
      (flipBit_ne _ i j (by rw [hivlen]; exact hi))]
    rfl

/-- C2 witness: concrete single-bit flips on the concrete platform all
make decryption fail. -/
theorem C2_tamper_sensitivity_witness :
    (AesGcm.decrypt toyPlatform
      { ciphertext := encodeBase64Url (flipBit (toyPlatform.aeadEncrypt
          (generateKeyBytes (fun _ => 0)) (generateIV (fun _ => 0))
          (toyPlatform.utf8Encode "Hi")) 0 0)
        key := (AesGcm.encrypt toyPlatform (fun _ => 0) (fun _ => 0) "Hi").key
        iv := (AesGcm.encrypt toyPlatform (fun _ => 0) (fun _ => 0) "Hi").iv
        algorithm := none } = none) ∧
    (AesGcm.decrypt toyPlatform
      { ciphertext := (AesGcm.encrypt toyPlatform (fun _ => 0) (fun _ => 0) "Hi").ciphertext
        key := encodeBase64Url (flipBit (generateKeyBytes (fun _ => 0)) 0 0)
        iv := (AesGcm.encrypt toyPlatform (fun _ => 0) (fun _ => 0) "Hi").iv
        algorithm := none } = none) ∧
    (AesGcm.decrypt toyPlatform
      { ciphertext := (AesGcm.encrypt toyPlatform (fun _ => 0) (fun _ => 0) "Hi").ciphertext
        key := (AesGcm.encrypt toyPlatform (fun _ => 0) (fun _ => 0) "Hi").key
        iv := encodeBase64Url (flipBit (generateIV (fun _ => 0)) 0 0)
        algorithm := none } = none) ∧
    (AesGcm.decryptWithPassword toyPlatform
      { ciphertext := encodeBase64Url (flipBit (toyPlatform.aeadEncrypt
          (toyPlatform.pbkdf2 (toyPlatform.utf8Encode "pw") (generateSalt (fun _ => 0))
            pbkdf2Iterations "SHA-256" keyLength)
          (generateIV (fun _ => 0)) (toyPlatform.utf8Encode "Hi")) 0 0)
        key := (AesGcm.encryptWithPassword toyPlatform (fun _ => 0) (fun _ => 0) "Hi" "pw").key
        iv := (AesGcm.encryptWithPassword toyPlatform (fun _ => 0) (fun _ => 0) "Hi" "pw").iv
        algorithm := none } "pw" = none) ∧
    (AesGcm.decryptWithPassword toyPlatform
      { ciphertext :=
          (AesGcm.encryptWithPassword toyPlatform (fun _ => 0) (fun _ => 0) "Hi" "pw").ciphertext
        key := encodeBase64Url (flipBit (generateSalt (fun _ => 0)) 0 0)
        iv := (AesGcm.encryptWithPassword toyPlatform (fun _ => 0) (fun _ => 0) "Hi" "pw").iv
        algorithm := none } "pw" = none) ∧
    (AesGcm.decryptWithPassword toyPlatform
      { ciphertext :=
          (AesGcm.encryptWithPassword toyPlatform (fun _ => 0) (fun _ => 0) "Hi" "pw").ciphertext
        key := (AesGcm.encryptWithPassword toyPlatform (fun _ => 0) (fun _ => 0) "Hi" "pw").key
        iv := encodeBase64Url (flipBit (generateIV (fun _ => 0)) 0 0)
        algorithm := none } "pw" = none) := by
  have h := C2_tamper_sensitivity toyPlatform toyPlatform_sound (fun _ => 0) (fun _ => 0)
    (fun _ => 0) (by intro n; show (0 : Nat) < 256; omega)
    (by intro n; show (0 : Nat) < 256; omega) (by intro n; show (0 : Nat) < 256; omega)
    "Hi" "pw" 0 0 (by omega)
  exact ⟨h.1 (by decide), h.2.1 (by omega), h.2.2.1 (by omega), h.2.2.2.1 (by decide),
    h.2.2.2.2.1 (by omega), h.2.2.2.2.2 (by omega)⟩

/-- C6: `encrypt` uses a 256-bit (32-byte) key and a 12-byte IV;
`encryptWithPassword` uses a 16-byte salt, a 12-byte IV, a key derived
by PBKDF2-HMAC-SHA256 with exactly 100,000 iterations and 256-bit
output, and returns the salt — not the derived key — base64url-encoded
in the `key` field. -/
theorem C6_parameters (P : Platform) (rndKey rndIV rndSalt : Nat → Nat)
    (hrk : ∀ n, rndKey n < 256) (hriv : ∀ n, rndIV n < 256) (hrs : ∀ n, rndSalt n < 256)
    (s pw : String) :
    (decodeBase64Url (AesGcm.encrypt P rndKey rndIV s).key = some (generateKeyBytes rndKey) ∧
      (generateKeyBytes rndKey).length = 32 ∧
      decodeBase64Url (AesGcm.encrypt P rndKey rndIV s).iv = some (generateIV rndIV) ∧
      (generateIV rndIV).length = 12) ∧
    (decodeBase64Url (AesGcm.encryptWithPassword P rndSalt rndIV s pw).key =
        some (generateSalt rndSalt) ∧
      (generateSalt rndSalt).length = 16 ∧
      decodeBase64Url (AesGcm.encryptWithPassword P rndSalt rndIV s pw).iv =
        some (generateIV rndIV) ∧
      (AesGcm.encryptWithPassword P rndSalt rndIV s pw).ciphertext =
        encodeBase64Url (P.aeadEncrypt
          (P.pbkdf2 (P.utf8Encode pw) (generateSalt rndSalt) 100000 "SHA-256" 256)
          (generateIV rndIV) (P.utf8Encode s))) := by
  refine ⟨⟨?_, generateKeyBytes_length rndKey, ?_, generateIV_length rndIV⟩,
    ⟨?_, generateSalt_length rndSalt, ?_, rfl⟩⟩
  · exact decodeBase64Url_encodeBase64Url _ (generateKeyBytes_bytes rndKey hrk)
  · exact decodeBase64Url_encodeBase64Url _ (generateIV_bytes rndIV hriv)
  · exact decodeBase64Url_encodeBase64Url _ (generateSalt_bytes rndSalt hrs)
  · exact decodeBase64Url_encodeBase64Url _ (generateIV_bytes rndIV hriv)

/-- C6 witness: the parameters evaluated on the concrete platform. -/
theorem C6_parameters_witness :
    (decodeBase64Url (AesGcm.encrypt toyPlatform (fun _ => 0) (fun _ => 0) "Hi").key =
        some (generateKeyBytes (fun _ => 0)) ∧
      (generateKeyBytes (fun _ => 0)).length = 32 ∧
      decodeBase64Url (AesGcm.encrypt toyPlatform (fun _ => 0) (fun _ => 0) "Hi").iv =
        some (generateIV (fun _ => 0)) ∧
      (generateIV (fun _ => 0)).length = 12) ∧
    (decodeBase64Url
        (AesGcm.encryptWithPassword toyPlatform (fun _ => 0) (fun _ => 0) "Hi" "pw").key =
        some (generateSalt (fun _ => 0)) ∧
      (generateSalt (fun _ => 0)).length = 16 ∧
      decodeBase64Url
        (AesGcm.encryptWithPassword toyPlatform (fun _ => 0) (fun _ => 0) "Hi" "pw").iv =
        some (generateIV (fun _ => 0)) ∧
      (AesGcm.encryptWithPassword toyPlatform (fun _ => 0) (fun _ => 0) "Hi" "pw").ciphertext =
        encodeBase64Url (toyPlatform.aeadEncrypt
          (toyPlatform.pbkdf2 (toyPlatform.utf8Encode "pw") (generateSalt (fun _ => 0))
            100000 "SHA-256" 256)
          (generateIV (fun _ => 0)) (toyPlatform.utf8Encode "Hi"))) :=
  C6_parameters toyPlatform (fun _ => 0) (fun _ => 0) (fun _ => 0)
    (by intro n; show (0 : Nat) < 256; omega) (by intro n; show (0 : Nat) < 256; omega)
    (by intro n; show (0 : Nat) < 256; omega) "Hi" "pw"

/-- C4: when a solution exists, the (un-cancelled) solver resolves with
the pair of the echoed challenge and the smallest nonce whose digest
meets the difficulty; any successful run returns that same nonce, and
difficulty 0 yields nonce 0. -/
theorem C4_pow_minimal (c : List Nat) (d n0 : Nat) (hsol : d ≤ powNonceBits c n0) :
    ∃ n, n ≤ n0 ∧
      (∃ fuel, solveFromZero c d fuel = some (c, n)) ∧
      d ≤ powNonceBits c n ∧
      (∀ m, m < n → powNonceBits c m < d) ∧
      (∀ fuel n2, solveFromZero c d fuel = some (c, n2) → n2 = n) ∧
      (d = 0 → n = 0) := by
  obtain ⟨r, hr⟩ := solveRec_terminates c d (n0 + 1) 0 ⟨n0, by omega, by omega, hsol⟩
  obtain ⟨-, hbits, hmin0⟩ := solveRec_spec c d (n0 + 1) 0 r hr
  have hmin : ∀ m, m < r → powNonceBits c m < d := fun m hm => hmin0 m (by omega) hm
  have hrle : r ≤ n0 := by
    by_contra hgt
    have := hmin n0 (by omega)
    omega
  have huniq : ∀ r2, d ≤ powNonceBits c r2 → (∀ m, m < r2 → powNonceBits c m < d) → r2 = r := by
    intro r2 hb2 hm2
    rcases Nat.lt_trichotomy r2 r with h | h | h
    · have := hmin r2 h; omega
    · exact h
    · have := hm2 r h; omega
  refine ⟨r, hrle, ⟨n0 + 1, ?_⟩, hbits, hmin, ?_, ?_⟩
  · unfold solveFromZero
    rw [hr]
    rfl
  · intro fuel n2 h2
    unfold solveFromZero at h2
    cases hsr : solveRec c d fuel 0 with
    | none => rw [hsr] at h2; simp at h2
    | some r2 =>
      rw [hsr] at h2
      have hn2 : r2 = n2 := by simpa using h2
      obtain ⟨-, hb2, hm2⟩ := solveRec_spec c d fuel 0 r2 hsr
      rw [← hn2]
      exact huniq r2 hb2 (fun m hm => hm2 m (by omega) hm)
  · intro hd0
    subst hd0
    by_contra hne
    have := hmin 0 (Nat.pos_of_ne_zero hne)
    omega

/-- C4 witness: difficulty 0 with a concrete challenge yields nonce 0
on the first attempt. -/
theorem C4_pow_minimal_witness :
    ∃ n, n ≤ 0 ∧
      (∃ fuel, solveFromZero [99] 0 fuel = some ([99], n)) ∧
      0 ≤ powNonceBits [99] n ∧
      (∀ m, m < n → powNonceBits [99] m < 0) ∧
      (∀ fuel n2, solveFromZero [99] 0 fuel = some (([99] : List Nat), n2) → n2 = n) ∧
      (0 = 0 → n = 0) :=
  C4_pow_minimal [99] 0 0 (Nat.zero_le _)

/-- C5: a cancel observed at the start of an iteration rejects the
in-flight solve instead of resolving it; `cancel` is idempotent; a new
`solve` clears the flag first, so its iterations are never rejected by
a stale cancellation. -/
theorem C5_cancellation (s : InlinePowSolver) (c : List Nat) (d n : Nat) :
    powSolveStep s.cancel c d n = .rejectedCancelled ∧
    (∀ m, powSolveStep s.cancel c d n ≠ .resolved m) ∧
    s.cancel.cancel = s.cancel ∧
    s.solveBegin.cancelled = false ∧
    powSolveStep s.solveBegin c d n ≠ .rejectedCancelled := by
  refine ⟨rfl, ?_, rfl, rfl, ?_⟩
  · intro m h
    exact absurd h (by simp [powSolveStep, InlinePowSolver.cancel])
  · intro h
    unfold powSolveStep InlinePowSolver.solveBegin at h
    simp only [Bool.false_eq_true, if_false] at h
    by_cases hb : d ≤ powNonceBits c n
    · rw [if_pos hb] at h
      exact PowStepOutcome.noConfusion h
    · rw [if_neg hb] at h
      exact PowStepOutcome.noConfusion h

/-- C7: decoding inverts encoding for every byte list; the encoder
avoids `'+'`, `'/'`, `'='`; and every well-formed base64url string
decodes and re-encodes to itself. -/
theorem C7_encoding_roundtrip :
    (∀ bs : List Nat, (∀ b ∈ bs, b < 256) → decodeBase64Url (encodeBase64Url bs) = some bs) ∧
    (∀ bs : List Nat, (∀ b ∈ bs, b < 256) →
      ∀ c ∈ (encodeBase64Url bs).data, c ≠ '+' ∧ c ≠ '/' ∧ c ≠ '=') ∧
    (∀ s : String, WellFormedB64Url s →
      ∃ bs, decodeBase64Url s = some bs ∧ encodeBase64Url bs = s) := by
  refine ⟨decodeBase64Url_encodeBase64Url, ?_, ?_⟩
  · intro bs hb c hc
    exact encodeUrl_no_bad_chars bs hb c hc
  · intro s hwf
    obtain ⟨bs, hb, rfl⟩ := hwf
    exact ⟨bs, decodeBase64Url_encodeBase64Url bs hb, rfl⟩

/-- C7 witness: the codec laws evaluated at concrete inputs. -/
theorem C7_encoding_roundtrip_witness :
    decodeBase64Url (encodeBase64Url [0, 1, 255, 7]) = some [0, 1, 255, 7] ∧
    (∀ c ∈ (encodeBase64Url [251, 239]).data, c ≠ '+' ∧ c ≠ '/' ∧ c ≠ '=') ∧
    (∃ bs, decodeBase64Url "AA" = some bs ∧ encodeBase64Url bs = "AA") :=
  ⟨C7_encoding_roundtrip.1 [0, 1, 255, 7] (by decide),
    C7_encoding_roundtrip.2.1 [251, 239] (by decide),
    C7_encoding_roundtrip.2.2 "AA" ⟨[0], by decide, by decide⟩⟩

/-- C8: keyed decryption is attempted first; on its failure the
password-retry loop runs at most `MAX_PASSWORD_ATTEMPTS = 5` attempts
before failing, and its outcome never depends on prompt answers beyond
that bound. -/
theorem C8_view_retry_bounded :
    MAX_PASSWORD_ATTEMPTS = 5 ∧
    (∀ (t : String) (tryPw : String → Option String) (prompts : Nat → Option String),
      viewDecryptStage (some t) tryPw prompts = .success t) ∧
    (∀ (tryPw : String → Option String) (prompts : Nat → Option String),
      (∀ pw, tryPw pw = none) →
      (∀ n, 1 ≤ n → n ≤ MAX_PASSWORD_ATTEMPTS → ∃ pw, prompts n = some pw ∧ pw ≠ "") →
      viewDecryptStage none tryPw prompts =
        .failure "Maximum password attempts exceeded. Incorrect password.") ∧
    (∀ (tryPw : String → Option String) (p p' : Nat → Option String),
      (∀ n, n ≤ MAX_PASSWORD_ATTEMPTS → p n = p' n) →
      viewDecryptStage none tryPw p = viewDecryptStage none tryPw p') := by
  refine ⟨rfl, fun t _ _ => rfl, ?_, ?_⟩
  · intro tryPw prompts hw hp
    exact viewPasswordLoop_all_wrong tryPw prompts hw hp 0 (by decide)
  · intro tryPw p p' hag
    exact viewPasswordLoop_congr tryPw p p' hag 0

/-- C8 witness: the bounded loop evaluated at concrete oracles. -/
theorem C8_view_retry_bounded_witness :
    viewDecryptStage (some "t") (fun _ => none) (fun _ => some "x") = .success "t" ∧
    viewDecryptStage none (fun _ => none) (fun _ => some "x") =
      .failure "Maximum password attempts exceeded. Incorrect password." :=
  ⟨C8_view_retry_bounded.2.1 "t" (fun _ => none) (fun _ => some "x"),
    C8_view_retry_bounded.2.2.1 (fun _ => none) (fun _ => some "x") (fun _ => rfl)
      (fun n _ _ => ⟨"x", rfl, by decide⟩)⟩

/-- C9: any error while fetching or solving the PoW challenge is
swallowed — the paste is still submitted, with `pow` set to `null`; a
solved challenge is submitted with its solution. -/
theorem C9_pow_failures_swallowed (ct iv : String) (ts : Nat) (sv : Bool) (vw : Nat)
    (solver : PowChallenge → SolveOutcome) :
    (∀ msg, creationSubmission ct iv ts sv vw (.fetchError msg) solver =
      { ct := ct, iv := iv, expireTs := ts, singleView := sv,
        viewsAllowed := if sv then 1 else vw, mime := "text/plain", pow := none }) ∧
    (creationSubmission ct iv ts sv vw .disabled solver).pow = none ∧
    (∀ c msg, solver c = .solveError msg →
      (creationSubmission ct iv ts sv vw (.ok c) solver).pow = none) ∧
    (∀ c sol, solver c = .solved sol →
      (creationSubmission ct iv ts sv vw (.ok c) solver).pow = some sol) ∧
    (∀ fetch, (creationSubmission ct iv ts sv vw fetch solver).ct = ct ∧
      (creationSubmission ct iv ts sv vw fetch solver).iv = iv) := by
  refine ⟨fun msg => rfl, rfl, ?_, ?_, fun fetch => ⟨rfl, rfl⟩⟩
  · intro c msg h
    simp [creationSubmission, powPhase, h]
  · intro c sol h
    simp [creationSubmission, powPhase, h]

/-- C9 witness: a fetch error and a solver cancellation both leave
`pow` null in the submitted request. -/
theorem C9_pow_failures_swallowed_witness :
    creationSubmission "c" "i" 0 false 1 (.fetchError "boom")
        (fun _ => .solveError "PoW solving cancelled") =
      { ct := "c", iv := "i", expireTs := 0, singleView := false,
        viewsAllowed := 1, mime := "text/plain", pow := none } ∧
    (creationSubmission "c" "i" 0 false 1 (.ok ⟨"ch", 3⟩)
        (fun _ => .solveError "PoW solving cancelled")).pow = none :=
  ⟨by
    have h := (C9_pow_failures_swallowed "c" "i" 0 false 1
      (fun _ => .solveError "PoW solving cancelled")).1 "boom"
    simpa using h,
   (C9_pow_failures_swallowed "c" "i" 0 false 1
      (fun _ => .solveError "PoW solving cancelled")).2.2.1 ⟨"ch", 3⟩
      "PoW solving cancelled" rfl⟩
